import Mathlib

set_option maxHeartbeats 1000000

/-!
Verification of the natural-language specification of `src/vbr_mcp.py`
(a small MCP tool server exposing three read-only operations against a
backup-management REST backend) against a shallow embedding of that code.

Modelling conventions:
* JSON values (`Json`) are the values produced by Python `json.loads`:
  objects keep member order, numbers are modelled as integers (fractional
  and exponent number forms involve floating point and are outside this
  embedding; no claim depends on them).
* `loads` models `response.json()` (`none` models the raised decode error),
  `dumps` models `json.dumps(v, indent=2)` (non-ASCII characters are passed
  through unescaped; no claim depends on the escaping of exotic characters).
* HTTP traffic is modelled by a backend function from requests to outcomes
  (`HttpResult.response status body` for a received response,
  `HttpResult.failure` for a transport-level exception), and each operation
  returns, besides its result string, the trace of token requests and of
  candidate GET requests it issued, in order.
* Python truthiness of the optional strings (`if not VBR_USERNAME`,
  `if repository_id:`) is modelled by `truthy`.
* `len(...)` applied inside the success-logging lines of the two listing
  operations is modelled by `pyLen` (it raises `TypeError`, i.e. `none`,
  on JSON scalars, which the per-candidate handler catches).
-/

/-! ## JSON values -/

mutual

/-- JSON values as decoded by Python `json.loads`: object members keep their
order, numbers are modelled as integers. -/
inductive Json where
| null : Json
| bool (b : Bool) : Json
| num (n : Int) : Json
| str (s : String) : Json
| arr (elems : JItems) : Json
| obj (members : JFields) : Json

/-- List of JSON array elements. -/
inductive JItems where
| nil : JItems
| cons (hd : Json) (tl : JItems) : JItems

/-- Ordered list of JSON object members. -/
inductive JFields where
| nil : JFields
| cons (key : String) (val : Json) (tl : JFields) : JFields

end

/-! ## Serialization: model of json.dumps(v, indent=2) -/

/-- Indentation: `n` space characters. -/
def spacesL (n : Nat) : List Char := List.replicate n ' '

/-- Lower-case hexadecimal digit for a value below 16. -/
def hexDigitChar (n : Nat) : Char := if n < 10 then Char.ofNat (48 + n) else Char.ofNat (87 + n)

/-- Decimal digit character. -/
def digitChar (n : Nat) : Char := Char.ofNat (48 + n)

/-- Decimal digits of a natural number, most significant first (`fuel`-driven;
`fuel` larger than the digit count suffices). -/
def natDecF : Nat → Nat → List Char
| 0, _ => []
| f+1, n => if n < 10 then [digitChar n] else natDecF f (n / 10) ++ [digitChar (n % 10)]

/-- Decimal digits of a natural number. -/
def natDec (n : Nat) : List Char := natDecF (n + 1) n

/-- Decimal rendering of an integer, the way Python renders `int`. -/
def intDec (n : Int) : List Char :=
  match n with
  | .ofNat m => natDec m
  | .negSucc m => '-' :: natDec (m + 1)

/-- Escape of a single character inside a JSON string literal, the way
`json.dumps` escapes it (non-ASCII characters are passed through). -/
def escapeChar (c : Char) : List Char :=
  if c = '"' then ['\\', '"']
  else if c = '\\' then ['\\', '\\']
  else if c = '\n' then ['\\', 'n']
  else if c = '\r' then ['\\', 'r']
  else if c = '\t' then ['\\', 't']
  else if c = '\x08' then ['\\', 'b']
  else if c = '\x0c' then ['\\', 'f']
  else if c.toNat < 32 then
    '\\' :: 'u' :: '0' :: '0' :: hexDigitChar (c.toNat / 16) :: [hexDigitChar (c.toNat % 16)]
  else [c]

/-- Escape of a character sequence inside a JSON string literal. -/
def escapeL : List Char → List Char
| [] => []
| c :: rest => escapeChar c ++ escapeL rest

/-- A JSON string literal: quotes around the escaped content. -/
def quoteL (s : String) : List Char := '"' :: (escapeL s.data ++ ['"'])

mutual

/-- Characters of `json.dumps(v, indent=2)` at indentation level `ind`
(the level the value's container prefixes its lines with). -/
def dumpsLV (ind : Nat) : Json → List Char
| .null => ("null").data
| .bool true => ("true").data
| .bool false => ("false").data
| .num n => intDec n
| .str s => quoteL s
| .arr .nil => ("[]").data
| .arr (.cons x xs) =>
  '[' :: '\n' :: (dumpsLA (ind + 2) (.cons x xs) ++ '\n' :: (spacesL ind ++ [']']))
| .obj .nil => ("\x7b\x7d").data
| .obj (.cons k v ms) =>
  '\x7b' :: '\n' :: (dumpsLO (ind + 2) (.cons k v ms) ++ '\n' :: (spacesL ind ++ ['\x7d']))

/-- Lines of the elements of a non-empty array, joined by a comma and newline. -/
def dumpsLA (ind : Nat) : JItems → List Char
| .nil => []
| .cons x .nil => spacesL ind ++ dumpsLV ind x
| .cons x (.cons y ys) =>
  spacesL ind ++ (dumpsLV ind x ++ ',' :: '\n' :: dumpsLA ind (.cons y ys))

/-- Lines of the members of a non-empty object, joined by a comma and newline. -/
def dumpsLO (ind : Nat) : JFields → List Char
| .nil => []
| .cons k v .nil => spacesL ind ++ (quoteL k ++ ':' :: ' ' :: dumpsLV ind v)
| .cons k v (.cons k2 v2 ms) =>
  spacesL ind ++ (quoteL k ++ ':' :: ' ' :: (dumpsLV ind v ++ ',' :: '\n' :: dumpsLO ind (.cons k2 v2 ms)))

end

/-- Model of `json.dumps(v, indent=2)`. -/
def dumps (v : Json) : String := String.mk (dumpsLV 0 v)

/-! ## Parsing: model of response.json() / json.loads -/

/-- JSON whitespace. -/
def isWsC (c : Char) : Bool := c = ' ' || c = '\t' || c = '\n' || c = '\r'

/-- Drop leading JSON whitespace. -/
def skipWs : List Char → List Char
| [] => []
| c :: rest => if isWsC c then skipWs rest else c :: rest

/-- Decimal digit test (48..57 are the code points of the digits). -/
def isDigitC (c : Char) : Bool := 48 ≤ c.toNat && c.toNat ≤ 57

/-- Value of a hexadecimal digit character. -/
def hexVal (c : Char) : Option Nat :=
  if 48 ≤ c.toNat ∧ c.toNat ≤ 57 then some (c.toNat - 48)
  else if 97 ≤ c.toNat ∧ c.toNat ≤ 102 then some (c.toNat - 87)
  else if 65 ≤ c.toNat ∧ c.toNat ≤ 70 then some (c.toNat - 55)
  else none

/-- Parse the body of a JSON string literal after the opening quote, through
the closing quote, decoding escapes; the fuel only needs to exceed the input
length. -/
def parseStr : Nat → List Char → Option (List Char × List Char)
| 0, _ => none
| _+1, [] => none
| f+1, c :: cs =>
  if c = '"' then some ([], cs)
  else if c = '\\' then
    match cs with
    | [] => none
    | e :: cs2 =>
      if e = '"' ∨ e = '\\' ∨ e = '/' then (parseStr f cs2).map (fun p => (e :: p.1, p.2))
      else if e = 'n' then (parseStr f cs2).map (fun p => ('\n' :: p.1, p.2))
      else if e = 'r' then (parseStr f cs2).map (fun p => ('\r' :: p.1, p.2))
      else if e = 't' then (parseStr f cs2).map (fun p => ('\t' :: p.1, p.2))
      else if e = 'b' then (parseStr f cs2).map (fun p => ('\x08' :: p.1, p.2))
      else if e = 'f' then (parseStr f cs2).map (fun p => ('\x0c' :: p.1, p.2))
      else if e = 'u' then
        match cs2 with
        | h1 :: h2 :: h3 :: h4 :: cs3 =>
          match hexVal h1, hexVal h2, hexVal h3, hexVal h4 with
          | some a, some b, some x, some y =>
            (parseStr f cs3).map (fun p => (Char.ofNat (((a * 16 + b) * 16 + x) * 16 + y) :: p.1, p.2))
          | _, _, _, _ => none
        | _ => none
      else none
  else if c.toNat < 32 then none
  else (parseStr f cs).map (fun p => (c :: p.1, p.2))

/-- Consume decimal digits, accumulating their value onto `acc`. -/
def parseDigitsAcc (acc : Nat) : List Char → Nat × List Char
| [] => (acc, [])
| c :: rest =>
  if isDigitC c then parseDigitsAcc (acc * 10 + (c.toNat - 48)) rest else (acc, c :: rest)

/-- Parse an unsigned JSON integer: `0`, or a nonzero digit followed by digits. -/
def parsePosNat : List Char → Option (Nat × List Char)
| [] => none
| c :: rest =>
  if c = '0' then some (0, rest)
  else if isDigitC c then some (parseDigitsAcc (c.toNat - 48) rest)
  else none

/-- Rejects fractional and exponent number forms: those decode to Python
floats, which are outside this embedding. -/
def noFloatHead : List Char → Bool
| [] => true
| c :: _ => !(c = '.' || c = 'e' || c = 'E')

/-- Parse a JSON integer literal, with optional leading minus sign. -/
def parseNum : List Char → Option (Json × List Char)
| [] => none
| c :: rest =>
  if c = '-' then
    match parsePosNat rest with
    | some (m, r) => if noFloatHead r then some (.num (-(m : Int)), r) else none
    | none => none
  else
    match parsePosNat (c :: rest) with
    | some (m, r) => if noFloatHead r then some (.num (m : Int), r) else none
    | none => none

/-- Expect an exact character sequence. -/
def expectChars : List Char → List Char → Option (List Char)
| [], rest => some rest
| _ :: _, [] => none
| c :: cs, d :: rest => if c = d then expectChars cs rest else none

mutual

/-- Parse one JSON value, returning it with the unconsumed remainder.
The fuel only needs to exceed the input length. -/
def parseVal : Nat → List Char → Option (Json × List Char)
| 0, _ => none
| f+1, cs =>
  match skipWs cs with
  | [] => none
  | c :: rest =>
    if c = 'n' then (expectChars ['u', 'l', 'l'] rest).map (fun r => (Json.null, r))
    else if c = 't' then (expectChars ['r', 'u', 'e'] rest).map (fun r => (Json.bool true, r))
    else if c = 'f' then (expectChars ['a', 'l', 's', 'e'] rest).map (fun r => (Json.bool false, r))
    else if c = '"' then (parseStr f rest).map (fun p => (Json.str (String.mk p.1), p.2))
    else if c = '[' then
      match skipWs rest with
      | [] => none
      | c2 :: r2 =>
        if c2 = ']' then some (Json.arr .nil, r2)
        else
          match parseVal f (c2 :: r2) with
          | some (v, r3) =>
            match parseArrTail f r3 with
            | some (vs, r4) => some (Json.arr (.cons v vs), r4)
            | none => none
          | none => none
    else if c = '\x7b' then
      match skipWs rest with
      | [] => none
      | c2 :: r2 =>
        if c2 = '\x7d' then some (Json.obj .nil, r2)
        else
          match parseMember f (c2 :: r2) with
          | some (k, v, r3) =>
            match parseObjTail f r3 with
            | some (ms, r4) => some (Json.obj (.cons k v ms), r4)
            | none => none
          | none => none
    else if c = '-' ∨ isDigitC c then parseNum (c :: rest)
    else none

/-- After one array element: a comma and the next element, or the closing
bracket. -/
def parseArrTail : Nat → List Char → Option (JItems × List Char)
| 0, _ => none
| f+1, cs =>
  match skipWs cs with
  | [] => none
  | c :: r =>
    if c = ']' then some (.nil, r)
    else if c = ',' then
      match parseVal f r with
      | some (v, r2) =>
        match parseArrTail f r2 with
        | some (vs, r3) => some (.cons v vs, r3)
        | none => none
      | none => none
    else none

/-- One object member: a string key, a colon, and a value. -/
def parseMember : Nat → List Char → Option (String × Json × List Char)
| 0, _ => none
| f+1, cs =>
  match skipWs cs with
  | [] => none
  | c :: r =>
    if c = '"' then
      match parseStr f r with
      | some (kcs, r2) =>
        match skipWs r2 with
        | [] => none
        | c2 :: r3 =>
          if c2 = ':' then
            match parseVal f r3 with
            | some (v, r4) => some (String.mk kcs, v, r4)
            | none => none
          else none
      | none => none
    else none

/-- After one object member: a comma and the next member, or the closing
brace. -/
def parseObjTail : Nat → List Char → Option (JFields × List Char)
| 0, _ => none
| f+1, cs =>
  match skipWs cs with
  | [] => none
  | c :: r =>
    if c = '\x7d' then some (.nil, r)
    else if c = ',' then
      match parseMember f r with
      | some (k, v, r2) =>
        match parseObjTail f r2 with
        | some (ms, r3) => some (.cons k v ms, r3)
        | none => none
      | none => none
    else none

end

/-- Model of Python `json.loads` / `response.json()`: `none` models the
raised `JSONDecodeError`. -/
def loads (s : String) : Option Json :=
  match parseVal (s.length + 1) s.data with
  | some (v, rest) => if skipWs rest = [] then some v else none
  | none => none

/-! ## Python helpers used by the code -/

/-- Number of elements of a JSON array. -/
def lenA : JItems → Nat
| .nil => 0
| .cons _ xs => lenA xs + 1

/-- Number of members of a JSON object. -/
def lenO : JFields → Nat
| .nil => 0
| .cons _ _ ms => lenO ms + 1

/-- Model of Python `len()` applied to a decoded JSON value: defined for
strings, lists and dicts; `none` models the `TypeError` raised on the other
values (None, bool, numbers). -/
def pyLen : Json → Option Nat
| .str s => some s.length
| .arr l => some (lenA l)
| .obj m => some (lenO m)
| _ => none

/-- A single quote character, for Python `repr` renderings. -/
def squote : String := String.singleton (Char.ofNat 39)

mutual

/-- Approximate model of Python `repr` of a decoded JSON value (used only
when a non-string token value is interpolated into the Bearer header; quote
escaping inside `repr` of strings is simplified). -/
def pyReprV : Json → String
| .null => "None"
| .bool true => "True"
| .bool false => "False"
| .num n => String.mk (intDec n)
| .str s => squote ++ s ++ squote
| .arr l => "[" ++ pyReprA l ++ "]"
| .obj m => "\x7b" ++ pyReprO m ++ "\x7d"

/-- Comma-joined `repr` of list elements. -/
def pyReprA : JItems → String
| .nil => ""
| .cons x .nil => pyReprV x
| .cons x (.cons y ys) => pyReprV x ++ ", " ++ pyReprA (.cons y ys)

/-- Comma-joined `repr` of dict members. -/
def pyReprO : JFields → String
| .nil => ""
| .cons k v .nil => squote ++ k ++ squote ++ ": " ++ pyReprV v
| .cons k v (.cons k2 v2 ms) =>
  squote ++ k ++ squote ++ ": " ++ pyReprV v ++ ", " ++ pyReprO (.cons k2 v2 ms)

end

/-- Model of Python `str()` as used by the f-string `f"Bearer {token}"`. -/
def pyStr : Json → String
| .str s => s
| v => pyReprV v

/-- Last binding of a key in an object member list (`json.loads` builds a
dict, where a duplicated key keeps its last value). -/
def lookupLast (k : String) : JFields → Option Json
| .nil => none
| .cons k2 v rest =>
  match lookupLast k rest with
  | some r => some r
  | none => if k2 = k then some v else none

/-- Model of `token_data["access_token"]` followed by the f-string: only a
dict supports the item access (`TypeError` otherwise, `KeyError` when the key
is absent — both caught by the `except` around the authentication block). -/
def bearerOf : Json → Option String
| .obj ms => (lookupLast "access_token" ms).map pyStr
| _ => none

/-- Python truthiness of an optional environment string: `None` and the empty
string are falsy. -/
def truthy : Option String → Bool
| none => false
| some s => !s.isEmpty

/-! ## HTTP model -/

/-- A GET request as issued by the candidate-probing loops. -/
structure Request where
  url : String
  headers : List (String × String)
  params : List (String × String)
deriving DecidableEq

/-- Outcome of one HTTP request as observed by the calling code: a response
with its status and raw body, or a raised transport-level exception. -/
inductive HttpResult where
| response (status : Nat) (body : String) : HttpResult
| failure (msg : String) : HttpResult
deriving DecidableEq

/-- The `requests.Session` state the code manipulates: certificate
verification flag and the default headers (the code only ever installs the
`Authorization` header there). -/
structure Session where
  verify : Bool
  headers : List (String × String)
deriving DecidableEq

/-- The POST issued to the token endpoint: URL, headers and form data. -/
structure TokenRequest where
  url : String
  headers : List (String × String)
  formData : List (String × String)
deriving DecidableEq

/-- The process environment the module reads at startup: `VBR_API_URL`
(defaulted), `VBR_USERNAME`, `VBR_PASSWORD`. -/
structure Env where
  apiUrl : String
  username : Option String
  password : Option String

/-! ## get_vbr_session -/

/-- Model of `get_vbr_session()`: a session with certificate validation
disabled; when both credentials are truthy, one POST to
`{base}/api/oauth2/token` with the password grant form; `raise_for_status`
raises exactly on 4xx/5xx statuses; any exception in the block (transport
error, bad status, undecodable body, missing/unusable `access_token`) is
caught and the session is returned without the `Authorization` header.
`auth` is the backend's behaviour on the token request; the returned list is
the trace of token requests issued (empty or a singleton). -/
def get_vbr_session (apiUrl : String) (username password : Option String)
    (auth : HttpResult) : Session × List TokenRequest :=
  let base : Session := { verify := false, headers := [] }
  if truthy username && truthy password then
    let req : TokenRequest :=
      { url := apiUrl ++ "/api/oauth2/token"
        headers := [("x-api-version", "1.2-rev0"),
                    ("Content-Type", "application/x-www-form-urlencoded")]
        formData := [("grant_type", "password"),
                     ("username", username.getD ""),
                     ("password", password.getD "")] }
    match auth with
    | .failure _ => (base, [req])
    | .response status body =>
      if 400 ≤ status ∧ status < 600 then (base, [req])
      else
        match loads body with
        | none => (base, [req])
        | some j =>
          match bearerOf j with
          | none => (base, [req])
          | some tok =>
            ({ verify := false, headers := [("Authorization", "Bearer " ++ tok)] }, [req])
  else (base, [])

/-! ## The candidate-probing loop shared by the three operations -/

/-- The per-request header dict each operation passes to `session.get`. -/
def apiHeaders : List (String × String) := [("x-api-version", "1.2-rev0")]

/-- The request one loop iteration issues: `session.get(url, headers=...)`
merges the session's default headers with the per-request ones. -/
def mkReq (sessionHeaders params : List (String × String)) (url : String) : Request :=
  { url := url, headers := sessionHeaders ++ apiHeaders, params := params }

/-- Outcome of one loop iteration on one candidate: `some v` exactly when the
iteration returns (status 200, body decodes, and — when `measure` is set,
modelling the `len(...)` inside the success log line of the two listing
operations — the decoded value supports `len`); `none` when the loop
continues (non-200 status, decode error, `len` TypeError, transport error:
all logged and swallowed by the per-candidate handler). -/
def attemptResult (measure : Bool) (r : HttpResult) : Option Json :=
  match r with
  | .failure _ => none
  | .response status body =>
    if status = 200 then
      match loads body with
      | some v =>
        if measure then (if (pyLen v).isSome then some v else none) else some v
      | none => none
    else none

/-- Model of the `for endpoint in endpoints:` loop of the three operations:
try each candidate URL in order; the first iteration that returns yields
`json.dumps(value, indent=2)`; if none does, the operation's diagnostic
string is returned. Also returns the trace of requests attempted, in order. -/
def probe (backend : Request → HttpResult) (sh params : List (String × String))
    (measure : Bool) (errMsg : String) : List String → String × List Request
| [] => (errMsg, [])
| url :: rest =>
  let req := mkReq sh params url
  match attemptResult measure (backend req) with
  | some v => (dumps v, [req])
  | none =>
    let out := probe backend sh params measure errMsg rest
    (out.1, req :: out.2)

/-! ## The three operations -/

/-- The candidate endpoints of `list_vbr_repositories`. -/
def repository_endpoints : List String :=
  ["/api/v1/backupInfrastructure/repositories", "/api/v1/repositories", "/api/repositories"]

/-- The candidate endpoints of `get_repository_details`, with the id
interpolated. -/
def repository_details_endpoints (id : String) : List String :=
  ["/api/v1/backupInfrastructure/repositories/" ++ id,
   "/api/v1/repositories/" ++ id,
   "/api/repositories/" ++ id]

/-- The candidate endpoints of `list_backup_jobs`. -/
def job_endpoints : List String :=
  ["/api/v1/jobs", "/api/v1/backupInfrastructure/jobs", "/api/jobs"]

/-- The session built for one operation invocation. -/
def sessionOf (env : Env) (auth : HttpResult) : Session :=
  (get_vbr_session env.apiUrl env.username env.password auth).1

/-- Model of the tool `list_vbr_repositories()`: result string, token-request
trace, candidate-request trace. The success log line calls
`len(repositories)`, hence `measure = true`. -/
def list_vbr_repositories (env : Env) (auth : HttpResult)
    (backend : Request → HttpResult) : String × List TokenRequest × List Request :=
  let s := get_vbr_session env.apiUrl env.username env.password auth
  let out := probe backend s.1.headers [] true "No valid repository endpoint found"
    (repository_endpoints.map (fun e => env.apiUrl ++ e))
  (out.1, s.2, out.2)

/-- Model of the tool `get_repository_details(id)`: its success log line does
not call `len`, hence `measure = false`. -/
def get_repository_details (id : String) (env : Env) (auth : HttpResult)
    (backend : Request → HttpResult) : String × List TokenRequest × List Request :=
  let s := get_vbr_session env.apiUrl env.username env.password auth
  let out := probe backend s.1.headers [] false
    ("No valid repository details endpoint found for ID " ++ id)
    ((repository_details_endpoints id).map (fun e => env.apiUrl ++ e))
  (out.1, s.2, out.2)

/-- The query-parameter dict `list_backup_jobs` builds on each iteration:
`params["repositoryId"] = repository_id` exactly when the filter is truthy. -/
def jobParams (repository_id : Option String) : List (String × String) :=
  if truthy repository_id then [("repositoryId", repository_id.getD "")] else []

/-- Model of the tool `list_backup_jobs(repository_id=None)`: the
`repositoryId` query parameter is included exactly when the filter is truthy;
the success log line calls `len(jobs)`, hence `measure = true`. -/
def list_backup_jobs (env : Env) (auth : HttpResult)
    (backend : Request → HttpResult) (repository_id : Option String := none) :
    String × List TokenRequest × List Request :=
  let s := get_vbr_session env.apiUrl env.username env.password auth
  let out := probe backend s.1.headers (jobParams repository_id) true
    "No valid jobs endpoint found"
    (job_endpoints.map (fun e => env.apiUrl ++ e))
  (out.1, s.2, out.2)

/-- Candidate URLs of the repository-listing operation. -/
def repoUrls (env : Env) : List String :=
  repository_endpoints.map (fun e => env.apiUrl ++ e)

/-- Candidate URLs of the repository-details operation. -/
def detailUrls (id : String) (env : Env) : List String :=
  (repository_details_endpoints id).map (fun e => env.apiUrl ++ e)

/-- Candidate URLs of the job-listing operation. -/
def jobUrls (env : Env) : List String :=
  job_endpoints.map (fun e => env.apiUrl ++ e)

/-- A candidate outcome that is a transport failure or a non-200 status makes
the iteration continue. -/
def hardFails (backend : Request → HttpResult) (r : Request) : Prop :=
  (∃ m, backend r = .failure m) ∨ ∃ s b, backend r = .response s b ∧ s ≠ 200

/-! ## Concrete fixtures used by witnesses and counterexamples -/

/-- An environment with no credentials and an empty base URL (so candidate
URLs coincide with the endpoint paths). -/
def env0 : Env := { apiUrl := "", username := none, password := none }

/-- A token-endpoint outcome that is a transport failure. -/
def authFail : HttpResult := .failure "down"

/-- A backend on which every request fails at the transport level. -/
def backendDown : Request → HttpResult := fun _ => .failure "down"

/-- An environment with credentials, for exercising authentication. -/
def env1 : Env := { apiUrl := "https://h", username := some "u", password := some "p" }

/-- A 200 token response carrying an access token. -/
def auth200 : HttpResult := .response 200 "\x7b\"access_token\": \"abc\"\x7d"

/-! ## C4: authentication failure is non-fatal -/

/-- The failure conditions of the authentication block as the code decides
them: falsy credentials; a transport failure of the token POST; a 4xx/5xx
status (what `raise_for_status` raises on); an undecodable token body; or a
decoded body without a usable `access_token`. -/
def authFailed (username password : Option String) (auth : HttpResult) : Prop :=
  truthy username = false ∨ truthy password = false ∨
  (∃ m, auth = .failure m) ∨
  (∃ st b, auth = .response st b ∧ 400 ≤ st ∧ st < 600) ∨
  (∃ st b, auth = .response st b ∧ loads b = none) ∨
  (∃ st b j, auth = .response st b ∧ loads b = some j ∧ bearerOf j = none)

/-! ## C1: first success wins -/

/-- A backend whose first repository candidate answers 200 with a body that
is not JSON, and whose second answers 200 with `[]`. -/
def backendC1 : Request → HttpResult := fun r =>
  if r.url = "/api/v1/backupInfrastructure/repositories" then .response 200 "nope"
  else if r.url = "/api/v1/repositories" then .response 200 "[]"
  else .failure "down"

/-- A backend whose first repository candidate succeeds with `[]`. -/
def backendW1 : Request → HttpResult := fun r =>
  if r.url = "/api/v1/backupInfrastructure/repositories" then .response 200 "[]"
  else .failure "down"

/-! ## C3: first non-200, second 200 -/

/-- A backend answering 404 on the first repository candidate and 200 with
the valid JSON body `7` on the second. -/
def backendC3 : Request → HttpResult := fun r =>
  if r.url = "/api/v1/backupInfrastructure/repositories" then .response 404 "missing"
  else if r.url = "/api/v1/repositories" then .response 200 "7"
  else .failure "down"

/-- A backend answering 404 on the first repository candidate and 200 with
`[]` on the second. -/
def backendW3 : Request → HttpResult := fun r =>
  if r.url = "/api/v1/backupInfrastructure/repositories" then .response 404 "x"
  else if r.url = "/api/v1/repositories" then .response 200 "[]"
  else .failure "down"

/-- A backend answering 200 with an undecodable body on URL `"a"`. -/
def backendW9 : Request → HttpResult := fun r =>
  if r.url = "a" then .response 200 "nope" else .failure "down"

/-- A condition on the unconsumed remainder that makes a rendered number
parse back unambiguously: empty, or starting with a character that is
neither a digit nor a fraction/exponent marker. -/
def numDelim : List Char → Prop
| [] => True
| c :: _ => isDigitC c = false ∧ c ≠ '.' ∧ c ≠ 'e' ∧ c ≠ 'E'

/-! ## Shape of the serializer output -/

/-- The rendering of an element list, split as first line plus the rest. -/
def tailA (ind : Nat) : JItems → List Char
| .nil => []
| .cons x xs => ',' :: '\n' :: dumpsLA ind (.cons x xs)

/-- The rendering of a member list, split as first line plus the rest. -/
def tailO (ind : Nat) : JFields → List Char
| .nil => []
| .cons k v ms => ',' :: '\n' :: dumpsLO ind (.cons k v ms)

/-- A backend whose first repository candidate succeeds with a one-element
array of objects. -/
def backendW7 : Request → HttpResult := fun r =>
  if r.url = "/api/v1/backupInfrastructure/repositories" then
    .response 200 "[\x7b\"id\": \"r1\"\x7d]"
  else .failure "down"

/-! ## Sanity checks of the executable model -/

example : loads "[]" = some (Json.arr .nil) := rfl

example : loads "nope" = none := rfl

example : loads " \x7b\"id\": \"r1\"\x7d " =
    some (Json.obj (.cons "id" (.str "r1") .nil)) := rfl

example : loads "[-12, 0, 34]" =
    some (Json.arr (.cons (.num (-12)) (.cons (.num 0) (.cons (.num 34) .nil)))) := rfl

example : loads "[true, false, null]" =
    some (Json.arr (.cons (.bool true) (.cons (.bool false) (.cons .null .nil)))) := rfl

example : dumps (Json.arr (.cons (Json.obj (.cons "id" (.str "r1") .nil)) .nil)) =
    "[\n  \x7b\n    \"id\": \"r1\"\n  \x7d\n]" := rfl

example : loads (dumps (Json.arr (.cons (Json.obj (.cons "id" (.str "r1") .nil)) .nil))) =
    some (Json.arr (.cons (Json.obj (.cons "id" (.str "r1") .nil)) .nil)) := rfl

example : attemptResult true (.response 200 "7") = none := rfl

example : attemptResult false (.response 200 "7") = some (.num 7) := rfl

/-! ## Basic facts about the probing loop -/

/-- When every candidate fails, the loop exhausts the list, attempts every
candidate in order and returns the diagnostic string. -/
theorem probe_all_none (backend : Request → HttpResult)
    (sh ps : List (String × String)) (measure : Bool) (err : String) :
    ∀ urls, (∀ u ∈ urls, attemptResult measure (backend (mkReq sh ps u)) = none) →
      probe backend sh ps measure err urls = (err, urls.map (mkReq sh ps)) := by
  intro urls
  induction urls with
  | nil => intro _; simp [probe]
  | cons u rest ih =>
    intro h
    have hu := h u (by simp)
    simp only [probe, hu, List.map_cons]
    rw [ih (fun x hx => h x (by simp [hx]))]

/-- The first succeeding candidate wins: the loop returns its re-serialized
body and attempts exactly the candidates up to and including it. -/
theorem probe_first_success (backend : Request → HttpResult)
    (sh ps : List (String × String)) (measure : Bool) (err : String) :
    ∀ pre u post v,
      (∀ x ∈ pre, attemptResult measure (backend (mkReq sh ps x)) = none) →
      attemptResult measure (backend (mkReq sh ps u)) = some v →
      probe backend sh ps measure err (pre ++ u :: post) =
        (dumps v, (pre ++ [u]).map (mkReq sh ps)) := by
  intro pre
  induction pre with
  | nil => intro u post v _ hu; simp [probe, hu]
  | cons x pre ih =>
    intro u post v hpre hu
    have hx := hpre x (by simp)
    simp only [List.cons_append, probe, hx, List.map_cons, List.append_eq]
    rw [ih u post v (fun y hy => hpre y (by simp [hy])) hu]

/-- Every request the loop attempts carries the query parameters it was
given. -/
theorem probe_trace_params (backend : Request → HttpResult)
    (sh ps : List (String × String)) (measure : Bool) (err : String) :
    ∀ urls, ∀ r ∈ (probe backend sh ps measure err urls).2, r.params = ps := by
  intro urls
  induction urls with
  | nil => intro r hr; simp [probe] at hr
  | cons u rest ih =>
    intro r hr
    simp only [probe] at hr
    cases h : attemptResult measure (backend (mkReq sh ps u)) with
    | some v => rw [h] at hr; simp at hr; rw [hr]; rfl
    | none =>
      rw [h] at hr; simp at hr
      rcases hr with hr | hr
      · rw [hr]; rfl
      · exact ih r hr

/-- Every request the loop attempts carries the session headers merged with
the per-request API-version header. -/
theorem probe_trace_headers (backend : Request → HttpResult)
    (sh ps : List (String × String)) (measure : Bool) (err : String) :
    ∀ urls, ∀ r ∈ (probe backend sh ps measure err urls).2,
      r.headers = sh ++ apiHeaders := by
  intro urls
  induction urls with
  | nil => intro r hr; simp [probe] at hr
  | cons u rest ih =>
    intro r hr
    simp only [probe] at hr
    cases h : attemptResult measure (backend (mkReq sh ps u)) with
    | some v => rw [h] at hr; simp at hr; rw [hr]; rfl
    | none =>
      rw [h] at hr; simp at hr
      rcases hr with hr | hr
      · rw [hr]; rfl
      · exact ih r hr

/-- The attempted URLs are an initial segment of the candidate list, in
order. -/
theorem probe_trace_urls (backend : Request → HttpResult)
    (sh ps : List (String × String)) (measure : Bool) (err : String) :
    ∀ urls, ∃ n, (probe backend sh ps measure err urls).2.map (fun r => r.url) =
      urls.take n := by
  intro urls
  induction urls with
  | nil => exact ⟨0, by simp [probe]⟩
  | cons u rest ih =>
    cases h : attemptResult measure (backend (mkReq sh ps u)) with
    | some v => exact ⟨1, by simp only [probe]; rw [h]; simp [mkReq]⟩
    | none =>
      rcases ih with ⟨n, hn⟩
      refine ⟨n + 1, ?_⟩
      simp only [probe]; rw [h]; simp [mkReq, List.take_succ_cons, hn]

/-- The loop always attempts at least the first candidate. -/
theorem probe_trace_ne_nil (backend : Request → HttpResult)
    (sh ps : List (String × String)) (measure : Bool) (err : String)
    (u : String) (rest : List String) :
    (probe backend sh ps measure err (u :: rest)).2 ≠ [] := by
  simp only [probe]
  cases h : attemptResult measure (backend (mkReq sh ps u)) <;> simp [h]

/-- Two backends that agree on every candidate request produce the same
probing outcome. -/
theorem probe_congr (backend backend2 : Request → HttpResult)
    (sh ps : List (String × String)) (measure : Bool) (err : String) :
    ∀ urls, (∀ u ∈ urls, backend2 (mkReq sh ps u) = backend (mkReq sh ps u)) →
      probe backend2 sh ps measure err urls = probe backend sh ps measure err urls := by
  intro urls
  induction urls with
  | nil => intro _; rfl
  | cons u rest ih =>
    intro h
    simp only [probe, h u (by simp)]
    rw [ih (fun x hx => h x (by simp [hx]))]

theorem attemptResult_of_hardFails (backend : Request → HttpResult) (r : Request)
    (measure : Bool) (h : hardFails backend r) :
    attemptResult measure (backend r) = none := by
  rcases h with ⟨m, hm⟩ | ⟨s, b, hb, hs⟩
  · rw [hm]; rfl
  · rw [hb]; simp [attemptResult, hs]

/-! ## C8: the candidate lists and their order -/

/-- C8: the candidate endpoint lists are fixed and tried in exactly the
specified order: list repositories tries
`/api/v1/backupInfrastructure/repositories`, then `/api/v1/repositories`,
then `/api/repositories`; get repository by id tries the same three paths in
the same order with `/{id}` appended; the attempted requests are always an
initial segment of those lists, in order. -/
theorem claim_C8 :
    repository_endpoints =
      ["/api/v1/backupInfrastructure/repositories", "/api/v1/repositories",
       "/api/repositories"] ∧
    (∀ id, repository_details_endpoints id =
      repository_endpoints.map (fun p => p ++ "/" ++ id)) ∧
    (∀ env auth backend, ∃ n,
      (list_vbr_repositories env auth backend).2.2.map (fun r => r.url) =
        (repoUrls env).take n) ∧
    (∀ id env auth backend, ∃ n,
      (get_repository_details id env auth backend).2.2.map (fun r => r.url) =
        (detailUrls id env).take n) := by
  refine ⟨rfl, fun id => rfl, fun env auth backend => ?_, fun id env auth backend => ?_⟩
  · simpa [list_vbr_repositories, repoUrls] using
      probe_trace_urls backend (sessionOf env auth).headers [] true
        "No valid repository endpoint found" (repoUrls env)
  · simpa [get_repository_details, detailUrls] using
      probe_trace_urls backend (sessionOf env auth).headers [] false
        ("No valid repository details endpoint found for ID " ++ id) (detailUrls id env)

/-! ## C10: empty-string filter behaves like no filter -/

/-- C10: calling `list_backup_jobs` with `repository_id` equal to the empty
string behaves exactly like calling it with no filter: the falsy empty string
suppresses the `repositoryId` query parameter, and result and traces
coincide for every backend. -/
theorem claim_C10 : ∀ env auth backend,
    list_backup_jobs env auth backend (some "") =
      list_backup_jobs env auth backend none := by
  intro env auth backend
  rfl

/-! ## C5: the repositoryId query parameter -/

/-- C5: with a non-empty `repository_id`, every candidate attempt of
`list_backup_jobs` — including failing ones — carries it as the
`repositoryId` query parameter; with no filter, no attempt carries any query
parameter. -/
theorem claim_C5 : ∀ env auth backend rid,
    (rid ≠ "" → ∀ r ∈ (list_backup_jobs env auth backend (some rid)).2.2,
      r.params = [("repositoryId", rid)]) ∧
    (∀ r ∈ (list_backup_jobs env auth backend none).2.2, r.params = []) := by
  intro env auth backend rid
  constructor
  · intro hrid r hr
    have hie : rid.isEmpty = false :=
      Bool.eq_false_iff.mpr (fun h => hrid ((String.isEmpty_iff rid).mp h))
    have htr : truthy (some rid) = true := by simp [truthy, hie]
    have := probe_trace_params backend (sessionOf env auth).headers
      (jobParams (some rid)) true "No valid jobs endpoint found" (jobUrls env) r
      (by simpa [list_backup_jobs, jobUrls, sessionOf] using hr)
    simpa [jobParams, htr] using this
  · intro r hr
    have := probe_trace_params backend (sessionOf env auth).headers
      (jobParams none) true "No valid jobs endpoint found" (jobUrls env) r
      (by simpa [list_backup_jobs, jobUrls, sessionOf] using hr)
    simpa [jobParams, truthy] using this

/-- Witness for C5 at a concrete call: the first attempted request of
`list_backup_jobs` with filter `"r1"` against an all-failing backend carries
the query parameter. -/
theorem claim_C5_witness :
    ("r1" : String) ≠ "" ∧
    (Request.mk "/api/v1/jobs" apiHeaders [("repositoryId", "r1")]).params =
      [("repositoryId", "r1")] :=
  ⟨by decide,
    (claim_C5 env0 authFail backendDown "r1").1 (by decide)
      (Request.mk "/api/v1/jobs" apiHeaders [("repositoryId", "r1")]) (by decide)⟩

/-! ## C2: totality and the all-fail diagnostics -/

/-- C2: the three operations are total by construction (the model functions
return a string on every input and backend behaviour; every raised exception
of the code is a caught branch of the model), and when every candidate fails
with a non-200 status or a transport error the result is the fixed non-empty
diagnostic string naming the failed operation. -/
theorem claim_C2 : ∀ env auth backend id rid,
    ((∀ u ∈ repoUrls env, hardFails backend (mkReq (sessionOf env auth).headers [] u)) →
      (list_vbr_repositories env auth backend).1 = "No valid repository endpoint found" ∧
      (list_vbr_repositories env auth backend).1 ≠ "") ∧
    ((∀ u ∈ detailUrls id env, hardFails backend (mkReq (sessionOf env auth).headers [] u)) →
      (get_repository_details id env auth backend).1 =
        "No valid repository details endpoint found for ID " ++ id ∧
      (get_repository_details id env auth backend).1 ≠ "") ∧
    ((∀ u ∈ jobUrls env, hardFails backend (mkReq (sessionOf env auth).headers (jobParams rid) u)) →
      (list_backup_jobs env auth backend rid).1 = "No valid jobs endpoint found" ∧
      (list_backup_jobs env auth backend rid).1 ≠ "") := by
  intro env auth backend id rid
  refine ⟨fun h => ?_, fun h => ?_, fun h => ?_⟩
  · have hall := probe_all_none backend (sessionOf env auth).headers [] true
      "No valid repository endpoint found" (repoUrls env)
      (fun u hu => attemptResult_of_hardFails backend _ true (h u hu))
    have hres : (list_vbr_repositories env auth backend).1 =
        "No valid repository endpoint found" := by
      simp [list_vbr_repositories, sessionOf, repoUrls] at hall ⊢
      rw [hall]
    exact ⟨hres, by rw [hres]; decide⟩
  · have hall := probe_all_none backend (sessionOf env auth).headers [] false
      ("No valid repository details endpoint found for ID " ++ id) (detailUrls id env)
      (fun u hu => attemptResult_of_hardFails backend _ false (h u hu))
    have hres : (get_repository_details id env auth backend).1 =
        "No valid repository details endpoint found for ID " ++ id := by
      simp [get_repository_details, sessionOf, detailUrls] at hall ⊢
      rw [hall]
    refine ⟨hres, ?_⟩
    rw [hres]
    intro hcon
    have hlen := congrArg String.length hcon
    rw [String.length_append] at hlen
    rw [show ("No valid repository details endpoint found for ID ").length = 50 from by decide,
        show ("" : String).length = 0 from rfl] at hlen
    omega
  · have hall := probe_all_none backend (sessionOf env auth).headers (jobParams rid) true
      "No valid jobs endpoint found" (jobUrls env)
      (fun u hu => attemptResult_of_hardFails backend _ true (h u hu))
    have hres : (list_backup_jobs env auth backend rid).1 = "No valid jobs endpoint found" := by
      simp [list_backup_jobs, sessionOf, jobUrls] at hall ⊢
      rw [hall]
    exact ⟨hres, by rw [hres]; decide⟩

/-- Witness for C2: against a backend failing every request at the transport
level, the repository listing returns its diagnostic string. -/
theorem claim_C2_witness :
    (list_vbr_repositories env0 authFail backendDown).1 =
      "No valid repository endpoint found" ∧
    (list_vbr_repositories env0 authFail backendDown).1 ≠ "" :=
  (claim_C2 env0 authFail backendDown "x" none).1
    (fun _ _ => Or.inl ⟨"down", rfl⟩)

/-! ## C6: the session builder -/

/-- C6: the session builder always disables TLS certificate validation; with
both credentials present it issues exactly one POST to
`{base}/api/oauth2/token` with the password-grant form fields and the
`x-api-version: 1.2-rev0` header; and on a 2xx response whose decoded body
carries `access_token` it installs `Authorization: Bearer <token>` as the
session's default header. -/
theorem claim_C6 : ∀ env auth,
    (sessionOf env auth).verify = false ∧
    (truthy env.username = true → truthy env.password = true →
      (get_vbr_session env.apiUrl env.username env.password auth).2 =
        [{ url := env.apiUrl ++ "/api/oauth2/token"
           headers := [("x-api-version", "1.2-rev0"),
                       ("Content-Type", "application/x-www-form-urlencoded")]
           formData := [("grant_type", "password"),
                        ("username", env.username.getD ""),
                        ("password", env.password.getD "")] }]) ∧
    (∀ st b j tok, truthy env.username = true → truthy env.password = true →
      auth = .response st b → 200 ≤ st → st < 300 →
      loads b = some j → bearerOf j = some tok →
      (sessionOf env auth).headers = [("Authorization", "Bearer " ++ tok)]) := by
  intro env auth
  refine ⟨?_, ?_, ?_⟩
  · unfold sessionOf get_vbr_session
    by_cases hc : truthy env.username && truthy env.password
    · cases auth with
      | failure m => simp [hc]
      | response st b =>
        by_cases hr : 400 ≤ st ∧ st < 600
        · simp [hc, hr]
        · cases hb : loads b with
          | none => simp [hc, hr, hb]
          | some j =>
            cases hj : bearerOf j with
            | none => simp [hc, hr, hb, hj]
            | some tok => simp [hc, hr, hb, hj]
    · simp [hc]
  · intro hu hp
    unfold get_vbr_session
    have hc : truthy env.username && truthy env.password := by simp [hu, hp]
    cases auth with
    | failure m => simp [hc]
    | response st b =>
      by_cases hr : 400 ≤ st ∧ st < 600
      · simp [hc, hr]
      · cases hb : loads b with
        | none => simp [hc, hr, hb]
        | some j =>
          cases hj : bearerOf j with
          | none => simp [hc, hr, hb, hj]
          | some tok => simp [hc, hr, hb, hj]
  · intro st b j tok hu hp hauth h2 h3 hb htok
    subst hauth
    unfold sessionOf get_vbr_session
    have hc : truthy env.username && truthy env.password := by simp [hu, hp]
    have hr : ¬(400 ≤ st ∧ st < 600) := by omega
    simp [hc, hr, hb, htok]

/-- Witness for C6: the concrete 200 token response installs the Bearer
header. -/
theorem claim_C6_witness :
    (sessionOf env1 auth200).headers = [("Authorization", "Bearer abc")] :=
  (claim_C6 env1 auth200).2.2 200 "\x7b\"access_token\": \"abc\"\x7d"
    (Json.obj (.cons "access_token" (.str "abc") .nil)) "abc"
    rfl rfl rfl (by decide) (by decide) rfl rfl

/-- Under any of the failure conditions the session is returned without any
default header (in particular without `Authorization`). -/
theorem get_vbr_session_unauth (apiUrl : String) (username password : Option String)
    (auth : HttpResult) (h : authFailed username password auth) :
    (get_vbr_session apiUrl username password auth).1.headers = [] := by
  unfold get_vbr_session
  rcases h with h | h | ⟨m, rfl⟩ | ⟨st, b, rfl, hst⟩ | ⟨st, b, rfl, hb⟩ | ⟨st, b, j, rfl, hb, hj⟩
  · simp [h]
  · simp [h]
  · by_cases hc : truthy username && truthy password <;> simp [hc]
  · by_cases hc : truthy username && truthy password <;> simp [hc, hst]
  · by_cases hc : truthy username && truthy password
    · by_cases hr : 400 ≤ st ∧ st < 600 <;> simp [hc, hr, hb]
    · simp [hc]
  · by_cases hc : truthy username && truthy password
    · by_cases hr : 400 ≤ st ∧ st < 600 <;> simp [hc, hr, hb, hj]
    · simp [hc]

/-- The repository candidate URL list, unfolded. -/
theorem repoUrls_def (env : Env) : repoUrls env =
    [env.apiUrl ++ "/api/v1/backupInfrastructure/repositories",
     env.apiUrl ++ "/api/v1/repositories",
     env.apiUrl ++ "/api/repositories"] := rfl

/-- The repository-details candidate URL list, unfolded. -/
theorem detailUrls_def (id : String) (env : Env) : detailUrls id env =
    [env.apiUrl ++ ("/api/v1/backupInfrastructure/repositories/" ++ id),
     env.apiUrl ++ ("/api/v1/repositories/" ++ id),
     env.apiUrl ++ ("/api/repositories/" ++ id)] := rfl

/-- The jobs candidate URL list, unfolded. -/
theorem jobUrls_def (env : Env) : jobUrls env =
    [env.apiUrl ++ "/api/v1/jobs",
     env.apiUrl ++ "/api/v1/backupInfrastructure/jobs",
     env.apiUrl ++ "/api/jobs"] := rfl

/-- C4 (amended): when authentication fails — credentials missing, or the
token request failing with a network error, a 4xx/5xx status, or a token
response without a usable `access_token` — the session carries no
`Authorization` header, and each operation still probes its candidates (at
least one request is attempted for every backend), each attempted request
carrying only the API-version header and no bearer header. -/
theorem claim_C4 : ∀ env auth,
    authFailed env.username env.password auth →
    (sessionOf env auth).headers = [] ∧
    (∀ backend,
      ((list_vbr_repositories env auth backend).2.2 ≠ [] ∧
        ∀ r ∈ (list_vbr_repositories env auth backend).2.2,
          r.headers = apiHeaders ∧ ∀ val, ("Authorization", val) ∉ r.headers) ∧
      (∀ id, (get_repository_details id env auth backend).2.2 ≠ [] ∧
        ∀ r ∈ (get_repository_details id env auth backend).2.2,
          r.headers = apiHeaders ∧ ∀ val, ("Authorization", val) ∉ r.headers) ∧
      (∀ rid, (list_backup_jobs env auth backend rid).2.2 ≠ [] ∧
        ∀ r ∈ (list_backup_jobs env auth backend rid).2.2,
          r.headers = apiHeaders ∧ ∀ val, ("Authorization", val) ∉ r.headers)) := by
  intro env auth h
  have hs : (sessionOf env auth).headers = [] :=
    get_vbr_session_unauth env.apiUrl env.username env.password auth h
  have hnotin : ∀ val : String, ("Authorization", val) ∉ apiHeaders := by
    intro val hmem
    simp [apiHeaders] at hmem
  refine ⟨hs, fun backend => ⟨⟨?_, ?_⟩, fun id => ⟨?_, ?_⟩, fun rid => ⟨?_, ?_⟩⟩⟩
  · show (probe backend (sessionOf env auth).headers [] true
      "No valid repository endpoint found" (repoUrls env)).2 ≠ []
    rw [repoUrls_def]
    exact probe_trace_ne_nil backend _ _ _ _ _ _
  · intro r hr
    have hh := probe_trace_headers backend (sessionOf env auth).headers [] true
      "No valid repository endpoint found" (repoUrls env) r hr
    rw [hs, List.nil_append] at hh
    exact ⟨hh, fun val => hh ▸ hnotin val⟩
  · show (probe backend (sessionOf env auth).headers [] false
      ("No valid repository details endpoint found for ID " ++ id) (detailUrls id env)).2 ≠ []
    rw [detailUrls_def]
    exact probe_trace_ne_nil backend _ _ _ _ _ _
  · intro r hr
    have hh := probe_trace_headers backend (sessionOf env auth).headers [] false
      ("No valid repository details endpoint found for ID " ++ id) (detailUrls id env) r hr
    rw [hs, List.nil_append] at hh
    exact ⟨hh, fun val => hh ▸ hnotin val⟩
  · show (probe backend (sessionOf env auth).headers (jobParams rid) true
      "No valid jobs endpoint found" (jobUrls env)).2 ≠ []
    rw [jobUrls_def]
    exact probe_trace_ne_nil backend _ _ _ _ _ _
  · intro r hr
    have hh := probe_trace_headers backend (sessionOf env auth).headers (jobParams rid) true
      "No valid jobs endpoint found" (jobUrls env) r hr
    rw [hs, List.nil_append] at hh
    exact ⟨hh, fun val => hh ▸ hnotin val⟩

/-- C4 counterexample: the claim as stated says a *non-2xx* token status
leaves the session without an `Authorization` header, but a 301 response
carrying `access_token` passes `raise_for_status` (which raises only on
4xx/5xx) and the code installs the bearer header. -/
theorem claim_C4_counterexample :
    (get_vbr_session "https://h" (some "u") (some "p")
        (.response 301 "\x7b\"access_token\": \"t\"\x7d")).1.headers =
      [("Authorization", "Bearer t")] ∧
    ¬(200 ≤ 301 ∧ 301 < 300) :=
  ⟨rfl, by omega⟩

/-- Witness for C4 at a concrete input: with credentials missing, the
repository listing still attempts requests against the all-failing backend
and its first attempted request carries no Authorization header. -/
theorem claim_C4_witness :
    (list_vbr_repositories env0 authFail backendDown).2.2 ≠ [] ∧
    (Request.mk "/api/v1/backupInfrastructure/repositories" apiHeaders []).headers =
      apiHeaders :=
  ⟨((claim_C4 env0 authFail (Or.inl rfl)).2 backendDown).1.1,
    (((claim_C4 env0 authFail (Or.inl rfl)).2 backendDown).1.2
      (Request.mk "/api/v1/backupInfrastructure/repositories" apiHeaders [])
      (by decide)).1⟩

/-- C1 counterexample: the first candidate returns HTTP 200, yet its body
does not become the result and a later candidate is attempted (two requests
in the trace, result from the second): the decode error of the 200 body is
caught and probing continues, contradicting the claim that a 200 always
stops the iteration. -/
theorem claim_C1_counterexample :
    backendC1 (mkReq [] [] "/api/v1/backupInfrastructure/repositories") =
      .response 200 "nope" ∧
    (list_vbr_repositories env0 authFail backendC1).2.2.length = 2 ∧
    (list_vbr_repositories env0 authFail backendC1).1 = "[]" :=
  ⟨rfl, rfl, rfl⟩

/-- C1 (amended): the candidates are tried in list order and, as soon as one
returns HTTP 200 with a body that decodes as JSON (and, for the two listing
operations, whose decoded value supports the logged `len(...)`, i.e. is an
array, object or string), its re-serialized body becomes the result and no
later candidate is attempted; hence at most one candidate response is
returned per operation. -/
theorem claim_C1_amended : ∀ env auth backend,
    (∀ pre u post v, repoUrls env = pre ++ u :: post →
      (∀ x ∈ pre, attemptResult true (backend (mkReq (sessionOf env auth).headers [] x)) = none) →
      attemptResult true (backend (mkReq (sessionOf env auth).headers [] u)) = some v →
      (list_vbr_repositories env auth backend).1 = dumps v ∧
      (list_vbr_repositories env auth backend).2.2 =
        (pre ++ [u]).map (mkReq (sessionOf env auth).headers [])) ∧
    (∀ id pre u post v, detailUrls id env = pre ++ u :: post →
      (∀ x ∈ pre, attemptResult false (backend (mkReq (sessionOf env auth).headers [] x)) = none) →
      attemptResult false (backend (mkReq (sessionOf env auth).headers [] u)) = some v →
      (get_repository_details id env auth backend).1 = dumps v ∧
      (get_repository_details id env auth backend).2.2 =
        (pre ++ [u]).map (mkReq (sessionOf env auth).headers [])) ∧
    (∀ rid pre u post v, jobUrls env = pre ++ u :: post →
      (∀ x ∈ pre,
        attemptResult true (backend (mkReq (sessionOf env auth).headers (jobParams rid) x)) = none) →
      attemptResult true (backend (mkReq (sessionOf env auth).headers (jobParams rid) u)) = some v →
      (list_backup_jobs env auth backend rid).1 = dumps v ∧
      (list_backup_jobs env auth backend rid).2.2 =
        (pre ++ [u]).map (mkReq (sessionOf env auth).headers (jobParams rid))) := by
  intro env auth backend
  refine ⟨?_, ?_, ?_⟩
  · intro pre u post v hdec hpre hu
    have hp := probe_first_success backend (sessionOf env auth).headers [] true
      "No valid repository endpoint found" pre u post v hpre hu
    constructor
    · show (probe backend (sessionOf env auth).headers [] true
        "No valid repository endpoint found" (repoUrls env)).1 = dumps v
      rw [hdec, hp]
    · show (probe backend (sessionOf env auth).headers [] true
        "No valid repository endpoint found" (repoUrls env)).2 =
          (pre ++ [u]).map (mkReq (sessionOf env auth).headers [])
      rw [hdec, hp]
  · intro id pre u post v hdec hpre hu
    have hp := probe_first_success backend (sessionOf env auth).headers [] false
      ("No valid repository details endpoint found for ID " ++ id) pre u post v hpre hu
    constructor
    · show (probe backend (sessionOf env auth).headers [] false
        ("No valid repository details endpoint found for ID " ++ id) (detailUrls id env)).1 = dumps v
      rw [hdec, hp]
    · show (probe backend (sessionOf env auth).headers [] false
        ("No valid repository details endpoint found for ID " ++ id) (detailUrls id env)).2 =
          (pre ++ [u]).map (mkReq (sessionOf env auth).headers [])
      rw [hdec, hp]
  · intro rid pre u post v hdec hpre hu
    have hp := probe_first_success backend (sessionOf env auth).headers (jobParams rid) true
      "No valid jobs endpoint found" pre u post v hpre hu
    constructor
    · show (probe backend (sessionOf env auth).headers (jobParams rid) true
        "No valid jobs endpoint found" (jobUrls env)).1 = dumps v
      rw [hdec, hp]
    · show (probe backend (sessionOf env auth).headers (jobParams rid) true
        "No valid jobs endpoint found" (jobUrls env)).2 =
          (pre ++ [u]).map (mkReq (sessionOf env auth).headers (jobParams rid))
      rw [hdec, hp]

/-- Witness for C1 (amended) at a concrete input: a first-candidate success
returns its body and attempts exactly one request. -/
theorem claim_C1_witness :
    (list_vbr_repositories env0 authFail backendW1).1 = dumps (Json.arr .nil) ∧
    (list_vbr_repositories env0 authFail backendW1).2.2 =
      [Request.mk "/api/v1/backupInfrastructure/repositories" apiHeaders []] := by
  have h := (claim_C1_amended env0 authFail backendW1).1 []
    "/api/v1/backupInfrastructure/repositories"
    ["/api/v1/repositories", "/api/repositories"]
    (Json.arr .nil) rfl (by intro x hx; simp at hx) rfl
  exact ⟨h.1, by rw [h.2]; rfl⟩

/-- C3 counterexample: first candidate non-200, second candidate 200 with
the valid JSON body `7` — yet the result is the diagnostic string, not the
rendering of `7`: the logged `len(...)` raises `TypeError` on an int and the
candidate is skipped. -/
theorem claim_C3_counterexample :
    backendC3 (mkReq [] [] "/api/v1/backupInfrastructure/repositories") =
      .response 404 "missing" ∧
    backendC3 (mkReq [] [] "/api/v1/repositories") = .response 200 "7" ∧
    loads "7" = some (Json.num 7) ∧
    (list_vbr_repositories env0 authFail backendC3).1 =
      "No valid repository endpoint found" ∧
    (list_vbr_repositories env0 authFail backendC3).1 ≠ dumps (Json.num 7) :=
  ⟨rfl, rfl, rfl, rfl, by decide⟩

/-- C3 (amended): if the first candidate returns a non-200 status and the
second returns HTTP 200 with a body that decodes as JSON (for the two
listing operations: to an array, object or string, which the logged
`len(...)` supports), the result is the indented rendering of the second
candidate's body only, and exactly those two requests are attempted. -/
theorem claim_C3_amended : ∀ env auth backend,
    (∀ u1 u2 rest2 s1 b1 b2 v, repoUrls env = u1 :: u2 :: rest2 →
      backend (mkReq (sessionOf env auth).headers [] u1) = .response s1 b1 → s1 ≠ 200 →
      backend (mkReq (sessionOf env auth).headers [] u2) = .response 200 b2 →
      loads b2 = some v → (pyLen v).isSome = true →
      (list_vbr_repositories env auth backend).1 = dumps v ∧
      (list_vbr_repositories env auth backend).2.2 =
        [mkReq (sessionOf env auth).headers [] u1,
         mkReq (sessionOf env auth).headers [] u2]) ∧
    (∀ id u1 u2 rest2 s1 b1 b2 v, detailUrls id env = u1 :: u2 :: rest2 →
      backend (mkReq (sessionOf env auth).headers [] u1) = .response s1 b1 → s1 ≠ 200 →
      backend (mkReq (sessionOf env auth).headers [] u2) = .response 200 b2 →
      loads b2 = some v →
      (get_repository_details id env auth backend).1 = dumps v ∧
      (get_repository_details id env auth backend).2.2 =
        [mkReq (sessionOf env auth).headers [] u1,
         mkReq (sessionOf env auth).headers [] u2]) ∧
    (∀ rid u1 u2 rest2 s1 b1 b2 v, jobUrls env = u1 :: u2 :: rest2 →
      backend (mkReq (sessionOf env auth).headers (jobParams rid) u1) = .response s1 b1 → s1 ≠ 200 →
      backend (mkReq (sessionOf env auth).headers (jobParams rid) u2) = .response 200 b2 →
      loads b2 = some v → (pyLen v).isSome = true →
      (list_backup_jobs env auth backend rid).1 = dumps v ∧
      (list_backup_jobs env auth backend rid).2.2 =
        [mkReq (sessionOf env auth).headers (jobParams rid) u1,
         mkReq (sessionOf env auth).headers (jobParams rid) u2]) := by
  intro env auth backend
  refine ⟨?_, ?_, ?_⟩
  · intro u1 u2 rest2 s1 b1 b2 v hdec h1 hs1 h2 hload hlen
    have ha1 : attemptResult true (backend (mkReq (sessionOf env auth).headers [] u1)) = none := by
      rw [h1]; simp [attemptResult, hs1]
    have ha2 : attemptResult true (backend (mkReq (sessionOf env auth).headers [] u2)) = some v := by
      rw [h2]; simp [attemptResult, hload, hlen]
    have hp := probe_first_success backend (sessionOf env auth).headers [] true
      "No valid repository endpoint found" [u1] u2 rest2 v
      (by intro x hx; simp at hx; rw [hx]; exact ha1) ha2
    constructor
    · show (probe backend (sessionOf env auth).headers [] true
        "No valid repository endpoint found" (repoUrls env)).1 = dumps v
      rw [hdec, show u1 :: u2 :: rest2 = [u1] ++ u2 :: rest2 from rfl, hp]
    · show (probe backend (sessionOf env auth).headers [] true
        "No valid repository endpoint found" (repoUrls env)).2 =
          [mkReq (sessionOf env auth).headers [] u1, mkReq (sessionOf env auth).headers [] u2]
      rw [hdec, show u1 :: u2 :: rest2 = [u1] ++ u2 :: rest2 from rfl, hp]; rfl
  · intro id u1 u2 rest2 s1 b1 b2 v hdec h1 hs1 h2 hload
    have ha1 : attemptResult false (backend (mkReq (sessionOf env auth).headers [] u1)) = none := by
      rw [h1]; simp [attemptResult, hs1]
    have ha2 : attemptResult false (backend (mkReq (sessionOf env auth).headers [] u2)) = some v := by
      rw [h2]; simp [attemptResult, hload]
    have hp := probe_first_success backend (sessionOf env auth).headers [] false
      ("No valid repository details endpoint found for ID " ++ id) [u1] u2 rest2 v
      (by intro x hx; simp at hx; rw [hx]; exact ha1) ha2
    constructor
    · show (probe backend (sessionOf env auth).headers [] false
        ("No valid repository details endpoint found for ID " ++ id) (detailUrls id env)).1 = dumps v
      rw [hdec, show u1 :: u2 :: rest2 = [u1] ++ u2 :: rest2 from rfl, hp]
    · show (probe backend (sessionOf env auth).headers [] false
        ("No valid repository details endpoint found for ID " ++ id) (detailUrls id env)).2 =
          [mkReq (sessionOf env auth).headers [] u1, mkReq (sessionOf env auth).headers [] u2]
      rw [hdec, show u1 :: u2 :: rest2 = [u1] ++ u2 :: rest2 from rfl, hp]; rfl
  · intro rid u1 u2 rest2 s1 b1 b2 v hdec h1 hs1 h2 hload hlen
    have ha1 : attemptResult true (backend (mkReq (sessionOf env auth).headers (jobParams rid) u1)) = none := by
      rw [h1]; simp [attemptResult, hs1]
    have ha2 : attemptResult true (backend (mkReq (sessionOf env auth).headers (jobParams rid) u2)) = some v := by
      rw [h2]; simp [attemptResult, hload, hlen]
    have hp := probe_first_success backend (sessionOf env auth).headers (jobParams rid) true
      "No valid jobs endpoint found" [u1] u2 rest2 v
      (by intro x hx; simp at hx; rw [hx]; exact ha1) ha2
    constructor
    · show (probe backend (sessionOf env auth).headers (jobParams rid) true
        "No valid jobs endpoint found" (jobUrls env)).1 = dumps v
      rw [hdec, show u1 :: u2 :: rest2 = [u1] ++ u2 :: rest2 from rfl, hp]
    · show (probe backend (sessionOf env auth).headers (jobParams rid) true
        "No valid jobs endpoint found" (jobUrls env)).2 =
          [mkReq (sessionOf env auth).headers (jobParams rid) u1,
           mkReq (sessionOf env auth).headers (jobParams rid) u2]
      rw [hdec, show u1 :: u2 :: rest2 = [u1] ++ u2 :: rest2 from rfl, hp]; rfl

/-- Witness for C3 (amended) at a concrete input. -/
theorem claim_C3_witness :
    (list_vbr_repositories env0 authFail backendW3).1 = dumps (Json.arr .nil) ∧
    (list_vbr_repositories env0 authFail backendW3).2.2 =
      [Request.mk "/api/v1/backupInfrastructure/repositories" apiHeaders [],
       Request.mk "/api/v1/repositories" apiHeaders []] := by
  have h := (claim_C3_amended env0 authFail backendW3).1
    "/api/v1/backupInfrastructure/repositories" "/api/v1/repositories"
    ["/api/repositories"] 404 "x" "[]" (Json.arr .nil)
    rfl rfl (by decide) rfl rfl rfl
  exact ⟨h.1, by rw [h.2]; rfl⟩

/-! ## C9: HTTP 200 with an undecodable body -/

/-- C9: a candidate that answers 200 with a body that does not decode never
produces the success result: the decode error is caught, the loop continues
with the next candidate, and the outcome is the same as if the candidate had
failed with a transport-level error. -/
theorem claim_C9 : ∀ (backend : Request → HttpResult) sh ps measure err u rest b,
    backend (mkReq sh ps u) = .response 200 b → loads b = none →
    (probe backend sh ps measure err (u :: rest) =
      ((probe backend sh ps measure err rest).1,
        mkReq sh ps u :: (probe backend sh ps measure err rest).2)) ∧
    (∀ backend2 m, u ∉ rest → backend2 (mkReq sh ps u) = .failure m →
      (∀ r, r ≠ mkReq sh ps u → backend2 r = backend r) →
      probe backend2 sh ps measure err (u :: rest) =
        probe backend sh ps measure err (u :: rest)) := by
  intro backend sh ps measure err u rest b hresp hload
  have hatt : attemptResult measure (backend (mkReq sh ps u)) = none := by
    rw [hresp]; simp [attemptResult, hload]
  constructor
  · simp only [probe, hatt]
  · intro backend2 m hu hfail hagree
    have hatt2 : attemptResult measure (backend2 (mkReq sh ps u)) = none := by
      rw [hfail]; rfl
    have hagree2 : ∀ x ∈ rest, backend2 (mkReq sh ps x) = backend (mkReq sh ps x) := by
      intro x hx
      apply hagree
      intro hcon
      have hxu : x = u := congrArg Request.url hcon
      rw [hxu] at hx
      exact hu hx
    have hcong := probe_congr backend backend2 sh ps measure err rest hagree2
    simp only [probe, hatt, hatt2, hcong]

/-- Witness for C9 at a concrete input: the 200-with-undecodable-body head
candidate is skipped and probing continues on the tail. -/
theorem claim_C9_witness :
    probe backendW9 [] [] true "no endpoint" ["a", "b"] =
      ((probe backendW9 [] [] true "no endpoint" ["b"]).1,
        mkReq [] [] "a" :: (probe backendW9 [] [] true "no endpoint" ["b"]).2) :=
  (claim_C9 backendW9 [] [] true "no endpoint" "a" ["b"] "nope" rfl rfl).1

/-! ## Character facts -/

/-- Code point of a character built from a valid code point. -/
theorem charToNat_ofNat (n : Nat) (h : n.isValidChar) : (Char.ofNat n).toNat = n := by
  rw [Char.ofNat, dif_pos h]
  rfl

/-- Characters with distinct code points are distinct. -/
theorem char_ne_of_toNat_ne {c : Char} (d : Char) (h : c.toNat ≠ d.toNat) : c ≠ d :=
  fun he => h (congrArg Char.toNat he)

/-- Code point of a decimal digit character. -/
theorem digitChar_toNat (n : Nat) (h : n < 10) : (digitChar n).toNat = 48 + n := by
  have hv : (48 + n).isValidChar := Or.inl (by omega)
  simpa [digitChar] using charToNat_ofNat _ hv

/-- A decimal digit character passes the digit test. -/
theorem isDigitC_digitChar (n : Nat) (h : n < 10) : isDigitC (digitChar n) = true := by
  simp [isDigitC, digitChar_toNat n h]
  omega

/-- Reading back a hexadecimal digit recovers its value. -/
theorem hexVal_hexDigitChar (m : Nat) (h : m < 16) : hexVal (hexDigitChar m) = some m := by
  by_cases h10 : m < 10
  · have ht : (hexDigitChar m).toNat = 48 + m := by
      have hv : (48 + m).isValidChar := Or.inl (by omega)
      simpa [hexDigitChar, h10] using charToNat_ofNat _ hv
    rw [hexVal, ht, if_pos (by omega)]
    simp only [Option.some.injEq]
    omega
  · have ht : (hexDigitChar m).toNat = 87 + m := by
      have hv : (87 + m).isValidChar := Or.inl (by omega)
      simpa [hexDigitChar, h10] using charToNat_ofNat _ hv
    rw [hexVal, ht, if_neg (by omega), if_pos (by omega)]
    simp only [Option.some.injEq]
    omega

/-! ## Reading back the decimal rendering -/

/-- Every character of the decimal rendering is a digit. -/
theorem natDecF_digits : ∀ f n, ∀ c ∈ natDecF f n, isDigitC c = true := by
  intro f
  induction f with
  | zero => intro n c hc; simp [natDecF] at hc
  | succ f ih =>
    intro n c hc
    by_cases h10 : n < 10
    · simp [natDecF, h10] at hc
      rw [hc]
      exact isDigitC_digitChar n h10
    · simp [natDecF, h10] at hc
      rcases hc with hc | hc
      · exact ih _ c hc
      · rw [hc]
        exact isDigitC_digitChar _ (Nat.mod_lt _ (by omega))

/-- For a positive number, the decimal rendering starts with a nonzero
digit. -/
theorem natDecF_head : ∀ f n, 1 ≤ n → n < 10 ^ f →
    ∃ c cs, natDecF f n = c :: cs ∧ isDigitC c = true ∧ c.toNat ≠ 48 := by
  intro f
  induction f with
  | zero => intro n h1 h2; simp at h2; omega
  | succ f ih =>
    intro n h1 h2
    by_cases h10 : n < 10
    · refine ⟨digitChar n, [], by simp [natDecF, h10], isDigitC_digitChar n h10, ?_⟩
      rw [digitChar_toNat n h10]
      omega
    · have hd1 : 1 ≤ n / 10 := by
        rw [Nat.le_div_iff_mul_le (by omega)]
        omega
      have hd2 : n / 10 < 10 ^ f := by
        rw [Nat.div_lt_iff_lt_mul (by omega)]
        calc n < 10 ^ (f + 1) := h2
        _ = 10 ^ f * 10 := by rw [Nat.pow_succ]
      obtain ⟨c, cs, hh, hdig, hz⟩ := ih (n / 10) hd1 hd2
      exact ⟨c, cs ++ [digitChar (n % 10)], by simp [natDecF, h10, hh], hdig, hz⟩

/-- Folding the digit-accumulation step over the decimal rendering recovers
the number (relative to an arbitrary accumulator). -/
theorem natDecF_foldl : ∀ f n acc, n < 10 ^ f →
    (natDecF f n).foldl (fun a c => a * 10 + (c.toNat - 48)) acc =
      acc * 10 ^ (natDecF f n).length + n := by
  intro f
  induction f with
  | zero =>
    intro n acc h
    simp [natDecF] at h ⊢
    omega
  | succ f ih =>
    intro n acc h
    by_cases h10 : n < 10
    · simp [natDecF, h10, digitChar_toNat n h10]
    · have hdiv : n / 10 < 10 ^ f := by
        rw [Nat.div_lt_iff_lt_mul (by omega)]
        calc n < 10 ^ (f + 1) := h
        _ = 10 ^ f * 10 := by rw [Nat.pow_succ]
      simp only [natDecF, if_neg h10, List.foldl_append, List.length_append]
      rw [ih (n / 10) acc hdiv]
      simp [digitChar_toNat (n % 10) (Nat.mod_lt _ (by omega))]
      rw [Nat.pow_succ, ← Nat.mul_assoc]
      have hnm := Nat.div_add_mod n 10
      omega

/-- The decimal rendering is nonempty, all digits, and its head is `'0'`
exactly for zero. -/
theorem natDec_cons (n : Nat) :
    ∃ c cs, natDec n = c :: cs ∧ isDigitC c = true ∧ (1 ≤ n → c.toNat ≠ 48) := by
  have hpow : n < 10 ^ (n + 1) := by
    calc n < 10 ^ n := Nat.lt_pow_self (by omega) n
    _ ≤ 10 ^ (n + 1) := Nat.pow_le_pow_right (by omega) (by omega)
  by_cases h0 : n = 0
  · subst h0
    exact ⟨'0', [], by decide, by decide, fun h => absurd h (by decide)⟩
  · obtain ⟨c, cs, hh, hdig, hz⟩ := natDecF_head (n + 1) n (by omega) hpow
    exact ⟨c, cs, hh, hdig, fun _ => hz⟩

/-- Reading back the decimal rendering of a natural number. -/
theorem natDec_foldl (n : Nat) :
    (natDec n).foldl (fun a c => a * 10 + (c.toNat - 48)) 0 = n := by
  have hpow : n < 10 ^ (n + 1) := by
    calc n < 10 ^ n := Nat.lt_pow_self (by omega) n
    _ ≤ 10 ^ (n + 1) := Nat.pow_le_pow_right (by omega) (by omega)
  rw [natDec, natDecF_foldl (n + 1) n 0 hpow]
  omega

/-! ## Reading numbers back through the parser -/

/-- The digit consumer stops exactly at the first non-digit. -/
theorem parseDigitsAcc_append (ds : List Char) :
    ∀ (rest : List Char) (acc : Nat), (∀ c ∈ ds, isDigitC c = true) →
    (rest = [] ∨ ∃ c cs, rest = c :: cs ∧ isDigitC c = false) →
    parseDigitsAcc acc (ds ++ rest) =
      (ds.foldl (fun a c => a * 10 + (c.toNat - 48)) acc, rest) := by
  induction ds with
  | nil =>
    intro rest acc _ hrest
    rcases hrest with rfl | ⟨c, cs, rfl, hc⟩
    · rfl
    · simp [parseDigitsAcc, hc]
  | cons d ds ih =>
    intro rest acc hds hrest
    have hd := hds d (by simp)
    simp only [List.cons_append, parseDigitsAcc, hd, if_pos, List.append_eq]
    rw [ih rest _ (fun c hc => hds c (by simp [hc])) hrest]
    rfl

/-- Reading back the unsigned decimal rendering. -/
theorem parsePosNat_natDec (n : Nat) (rest : List Char)
    (hrest : rest = [] ∨ ∃ c cs, rest = c :: cs ∧ isDigitC c = false) :
    parsePosNat (natDec n ++ rest) = some (n, rest) := by
  by_cases h0 : n = 0
  · subst h0
    rw [show natDec 0 = ['0'] from by decide]
    rcases hrest with rfl | ⟨c, cs, rfl, hc⟩
    · rfl
    · simp [parsePosNat]
  · obtain ⟨c, cs, hh, hdig, hz⟩ := natDec_cons n
    have hz' := hz (by omega)
    have hc0 : ¬(c = '0') := char_ne_of_toNat_ne '0' (by rw [show ('0').toNat = 48 from rfl]; omega)
    have hdall : ∀ x ∈ cs, isDigitC x = true := by
      intro x hx
      exact natDecF_digits (n + 1) n x (by rw [show natDecF (n + 1) n = natDec n from rfl, hh]; simp [hx])
    rw [hh, List.cons_append, parsePosNat, if_neg hc0, if_pos hdig]
    rw [parseDigitsAcc_append cs rest (c.toNat - 48) hdall hrest]
    have hfold := natDec_foldl n
    rw [hh] at hfold
    simp only [List.foldl_cons] at hfold
    rw [show 0 * 10 + (c.toNat - 48) = c.toNat - 48 from by omega] at hfold
    rw [hfold]

/-- The delimiter conditions after a rendered number. -/
theorem noFloatHead_of (rest : List Char)
    (hrest : rest = [] ∨ ∃ c cs, rest = c :: cs ∧ c ≠ '.' ∧ c ≠ 'e' ∧ c ≠ 'E') :
    noFloatHead rest = true := by
  rcases hrest with rfl | ⟨c, cs, rfl, h1, h2, h3⟩
  · rfl
  · simp [noFloatHead, h1, h2, h3]

/-- Reading back the signed decimal rendering. -/
theorem parseNum_intDec (n : Int) (rest : List Char) (hrest : numDelim rest) :
    parseNum (intDec n ++ rest) = some (.num n, rest) := by
  have hrest1 : rest = [] ∨ ∃ c cs, rest = c :: cs ∧ isDigitC c = false := by
    cases rest with
    | nil => exact Or.inl rfl
    | cons c cs => exact Or.inr ⟨c, cs, rfl, hrest.1⟩
  have hfloat : noFloatHead rest = true := by
    apply noFloatHead_of
    cases rest with
    | nil => exact Or.inl rfl
    | cons c cs => exact Or.inr ⟨c, cs, rfl, hrest.2.1, hrest.2.2.1, hrest.2.2.2⟩
  cases n with
  | ofNat m =>
    obtain ⟨c, cs, hh, hdig, _⟩ := natDec_cons m
    have hcm : ¬(c = '-') := by
      apply char_ne_of_toNat_ne
      simp [isDigitC] at hdig
      rw [show ('-').toNat = 45 from rfl]
      omega
    rw [show intDec (Int.ofNat m) = natDec m from rfl, hh, List.cons_append, parseNum,
      if_neg hcm, ← List.cons_append, ← hh]
    rw [parsePosNat_natDec m rest hrest1]
    simp [hfloat]
  | negSucc m =>
    rw [show intDec (Int.negSucc m) = '-' :: natDec (m + 1) from rfl, List.cons_append, parseNum,
      if_pos rfl]
    rw [parsePosNat_natDec (m + 1) rest hrest1]
    simp only [hfloat, if_pos]
    have : -((m + 1 : Nat) : Int) = Int.negSucc m := by
      rw [Int.negSucc_eq]
      push_cast
      ring
    rw [this]

/-! ## Whitespace handling -/

/-- Dropping a whitespace head. -/
theorem skipWs_cons_ws (c : Char) (l : List Char) (h : isWsC c = true) :
    skipWs (c :: l) = skipWs l := by
  simp [skipWs, h]

/-- A non-whitespace head stops the skipping. -/
theorem skipWs_cons_not (c : Char) (l : List Char) (h : isWsC c = false) :
    skipWs (c :: l) = c :: l := by
  simp [skipWs, h]

/-- Skipping over an all-whitespace prefix. -/
theorem skipWs_append_ws : ∀ (ws l : List Char), (∀ c ∈ ws, isWsC c = true) →
    skipWs (ws ++ l) = skipWs l := by
  intro ws
  induction ws with
  | nil => intro l _; rfl
  | cons c ws ih =>
    intro l h
    rw [List.cons_append, skipWs_cons_ws c _ (h c (by simp))]
    exact ih l (fun x hx => h x (by simp [hx]))

/-- Whitespace skipping is idempotent. -/
theorem skipWs_idem : ∀ l, skipWs (skipWs l) = skipWs l := by
  intro l
  induction l with
  | nil => rfl
  | cons c l ih =>
    by_cases h : isWsC c = true
    · rw [skipWs_cons_ws c l h, ih]
    · have h' : isWsC c = false := by simp at h; exact h
      rw [skipWs_cons_not c l h', skipWs_cons_not c l h']

/-- Every character of an indentation run is whitespace. -/
theorem spacesL_all_ws (n : Nat) : ∀ c ∈ spacesL n, isWsC c = true := by
  intro c hc
  rw [spacesL] at hc
  rw [List.eq_of_mem_replicate hc]
  rfl

/-- Rebuilding a string from its characters. -/
theorem strMk_data : ∀ s : String, String.mk s.data = s
  | ⟨_⟩ => rfl

/-! ## Parser branch laws -/

theorem parseStr_close (f : Nat) (cs : List Char) :
    parseStr (f+1) ('"' :: cs) = some ([], cs) := rfl

theorem parseStr_esc_quote (f : Nat) (cs : List Char) :
    parseStr (f+1) ('\\' :: '"' :: cs) = (parseStr f cs).map (fun p => ('"' :: p.1, p.2)) := rfl

theorem parseStr_esc_bs (f : Nat) (cs : List Char) :
    parseStr (f+1) ('\\' :: '\\' :: cs) = (parseStr f cs).map (fun p => ('\\' :: p.1, p.2)) := rfl

theorem parseStr_esc_n (f : Nat) (cs : List Char) :
    parseStr (f+1) ('\\' :: 'n' :: cs) = (parseStr f cs).map (fun p => ('\n' :: p.1, p.2)) := rfl

theorem parseStr_esc_r (f : Nat) (cs : List Char) :
    parseStr (f+1) ('\\' :: 'r' :: cs) = (parseStr f cs).map (fun p => ('\r' :: p.1, p.2)) := rfl

theorem parseStr_esc_t (f : Nat) (cs : List Char) :
    parseStr (f+1) ('\\' :: 't' :: cs) = (parseStr f cs).map (fun p => ('\t' :: p.1, p.2)) := rfl

theorem parseStr_esc_b (f : Nat) (cs : List Char) :
    parseStr (f+1) ('\\' :: 'b' :: cs) = (parseStr f cs).map (fun p => ('\x08' :: p.1, p.2)) := rfl

theorem parseStr_esc_f (f : Nat) (cs : List Char) :
    parseStr (f+1) ('\\' :: 'f' :: cs) = (parseStr f cs).map (fun p => ('\x0c' :: p.1, p.2)) := rfl

theorem parseStr_esc_u (f : Nat) (d1 d2 d3 d4 : Char) (cs3 : List Char) :
    parseStr (f+1) ('\\' :: 'u' :: d1 :: d2 :: d3 :: d4 :: cs3) =
      match hexVal d1, hexVal d2, hexVal d3, hexVal d4 with
      | some a, some b, some x, some y =>
        (parseStr f cs3).map (fun p => (Char.ofNat (((a * 16 + b) * 16 + x) * 16 + y) :: p.1, p.2))
      | _, _, _, _ => none := rfl

theorem parseStr_plain (f : Nat) (c : Char) (cs : List Char)
    (h1 : ¬(c = '"')) (h2 : ¬(c = '\\')) (h3 : ¬(c.toNat < 32)) :
    parseStr (f+1) (c :: cs) = (parseStr f cs).map (fun p => (c :: p.1, p.2)) := by
  simp only [parseStr]
  rw [if_neg h1, if_neg h2, if_neg h3]

/-! ## Reading back an escaped string body -/

theorem parseStr_escape : ∀ f (l rest : List Char),
    (escapeL l).length + rest.length + 1 < f →
    parseStr f (escapeL l ++ '"' :: rest) = some (l, rest) := by
  intro f
  induction f with
  | zero => intro l rest h; omega
  | succ f ih =>
    intro l rest hlen
    cases l with
    | nil =>
      rw [show escapeL [] = [] from rfl, List.nil_append, parseStr_close]
    | cons c l2 =>
      rw [show escapeL (c :: l2) = escapeChar c ++ escapeL l2 from rfl] at hlen ⊢
      rw [List.append_assoc]
      by_cases h1 : c = '"'
      · subst h1
        rw [show escapeChar '"' = ['\\', '"'] from by decide] at hlen ⊢
        simp only [List.length_append, List.length_cons, List.length_nil] at hlen
        rw [show (['\\', '"'] : List Char) ++ (escapeL l2 ++ '"' :: rest) =
          '\\' :: '"' :: (escapeL l2 ++ '"' :: rest) from rfl]
        rw [parseStr_esc_quote, ih l2 rest (by omega)]
        rfl
      · by_cases h2 : c = '\\'
        · subst h2
          rw [show escapeChar '\\' = ['\\', '\\'] from by decide] at hlen ⊢
          simp only [List.length_append, List.length_cons, List.length_nil] at hlen
          rw [show (['\\', '\\'] : List Char) ++ (escapeL l2 ++ '"' :: rest) =
            '\\' :: '\\' :: (escapeL l2 ++ '"' :: rest) from rfl]
          rw [parseStr_esc_bs, ih l2 rest (by omega)]
          rfl
        · by_cases h3 : c = '\n'
          · subst h3
            rw [show escapeChar '\n' = ['\\', 'n'] from by decide] at hlen ⊢
            simp only [List.length_append, List.length_cons, List.length_nil] at hlen
            rw [show (['\\', 'n'] : List Char) ++ (escapeL l2 ++ '"' :: rest) =
              '\\' :: 'n' :: (escapeL l2 ++ '"' :: rest) from rfl]
            rw [parseStr_esc_n, ih l2 rest (by omega)]
            rfl
          · by_cases h4 : c = '\r'
            · subst h4
              rw [show escapeChar '\r' = ['\\', 'r'] from by decide] at hlen ⊢
              simp only [List.length_append, List.length_cons, List.length_nil] at hlen
              rw [show (['\\', 'r'] : List Char) ++ (escapeL l2 ++ '"' :: rest) =
                '\\' :: 'r' :: (escapeL l2 ++ '"' :: rest) from rfl]
              rw [parseStr_esc_r, ih l2 rest (by omega)]
              rfl
            · by_cases h5 : c = '\t'
              · subst h5
                rw [show escapeChar '\t' = ['\\', 't'] from by decide] at hlen ⊢
                simp only [List.length_append, List.length_cons, List.length_nil] at hlen
                rw [show (['\\', 't'] : List Char) ++ (escapeL l2 ++ '"' :: rest) =
                  '\\' :: 't' :: (escapeL l2 ++ '"' :: rest) from rfl]
                rw [parseStr_esc_t, ih l2 rest (by omega)]
                rfl
              · by_cases h6 : c = '\x08'
                · subst h6
                  rw [show escapeChar '\x08' = ['\\', 'b'] from by decide] at hlen ⊢
                  simp only [List.length_append, List.length_cons, List.length_nil] at hlen
                  rw [show (['\\', 'b'] : List Char) ++ (escapeL l2 ++ '"' :: rest) =
                    '\\' :: 'b' :: (escapeL l2 ++ '"' :: rest) from rfl]
                  rw [parseStr_esc_b, ih l2 rest (by omega)]
                  rfl
                · by_cases h7 : c = '\x0c'
                  · subst h7
                    rw [show escapeChar '\x0c' = ['\\', 'f'] from by decide] at hlen ⊢
                    simp only [List.length_append, List.length_cons, List.length_nil] at hlen
                    rw [show (['\\', 'f'] : List Char) ++ (escapeL l2 ++ '"' :: rest) =
                      '\\' :: 'f' :: (escapeL l2 ++ '"' :: rest) from rfl]
                    rw [parseStr_esc_f, ih l2 rest (by omega)]
                    rfl
                  · by_cases h8 : c.toNat < 32
                    · have hec : escapeChar c =
                        ['\\', 'u', '0', '0', hexDigitChar (c.toNat / 16), hexDigitChar (c.toNat % 16)] := by
                        rw [escapeChar, if_neg h1, if_neg h2, if_neg h3, if_neg h4, if_neg h5,
                          if_neg h6, if_neg h7, if_pos h8]
                      rw [hec] at hlen ⊢
                      simp only [List.length_append, List.length_cons, List.length_nil] at hlen
                      rw [show (['\\', 'u', '0', '0', hexDigitChar (c.toNat / 16),
                            hexDigitChar (c.toNat % 16)] : List Char) ++ (escapeL l2 ++ '"' :: rest) =
                        '\\' :: 'u' :: '0' :: '0' :: hexDigitChar (c.toNat / 16) ::
                          hexDigitChar (c.toNat % 16) :: (escapeL l2 ++ '"' :: rest) from rfl]
                      rw [parseStr_esc_u]
                      rw [show hexVal '0' = some 0 from by decide,
                        hexVal_hexDigitChar (c.toNat / 16) (by omega),
                        hexVal_hexDigitChar (c.toNat % 16) (by omega)]
                      simp only []
                      rw [ih l2 rest (by omega)]
                      have hcode : ((0 * 16 + 0) * 16 + c.toNat / 16) * 16 + c.toNat % 16 = c.toNat := by
                        omega
                      rw [hcode, Char.ofNat_toNat]
                      rfl
                    · have hec : escapeChar c = [c] := by
                        rw [escapeChar, if_neg h1, if_neg h2, if_neg h3, if_neg h4, if_neg h5,
                          if_neg h6, if_neg h7, if_neg h8]
                      rw [hec] at hlen ⊢
                      simp only [List.length_append, List.length_cons, List.length_nil] at hlen
                      rw [show ([c] : List Char) ++ (escapeL l2 ++ '"' :: rest) =
                        c :: (escapeL l2 ++ '"' :: rest) from rfl]
                      rw [parseStr_plain f c _ h1 h2 h8, ih l2 rest (by omega)]
                      rfl

/-! ## Value-parser branch laws -/

theorem parseVal_succ (f : Nat) (cs : List Char) :
    parseVal (f+1) cs = parseVal (f+1) (skipWs cs) := by
  conv_lhs => rw [parseVal]
  conv_rhs => rw [parseVal]
  rw [skipWs_idem]

theorem parseVal_ws (f : Nat) (ws cs : List Char) (h : ∀ c ∈ ws, isWsC c = true) :
    parseVal (f+1) (ws ++ cs) = parseVal (f+1) cs := by
  rw [parseVal_succ, skipWs_append_ws ws cs h, ← parseVal_succ]

theorem parseMember_succ (f : Nat) (cs : List Char) :
    parseMember (f+1) cs = parseMember (f+1) (skipWs cs) := by
  conv_lhs => rw [parseMember]
  conv_rhs => rw [parseMember]
  rw [skipWs_idem]

theorem parseMember_ws (f : Nat) (ws cs : List Char) (h : ∀ c ∈ ws, isWsC c = true) :
    parseMember (f+1) (ws ++ cs) = parseMember (f+1) cs := by
  rw [parseMember_succ, skipWs_append_ws ws cs h, ← parseMember_succ]

theorem parseArrTail_succ (f : Nat) (cs : List Char) :
    parseArrTail (f+1) cs = parseArrTail (f+1) (skipWs cs) := by
  conv_lhs => rw [parseArrTail]
  conv_rhs => rw [parseArrTail]
  rw [skipWs_idem]

theorem parseArrTail_ws (f : Nat) (ws cs : List Char) (h : ∀ c ∈ ws, isWsC c = true) :
    parseArrTail (f+1) (ws ++ cs) = parseArrTail (f+1) cs := by
  rw [parseArrTail_succ, skipWs_append_ws ws cs h, ← parseArrTail_succ]

theorem parseObjTail_succ (f : Nat) (cs : List Char) :
    parseObjTail (f+1) cs = parseObjTail (f+1) (skipWs cs) := by
  conv_lhs => rw [parseObjTail]
  conv_rhs => rw [parseObjTail]
  rw [skipWs_idem]

theorem parseObjTail_ws (f : Nat) (ws cs : List Char) (h : ∀ c ∈ ws, isWsC c = true) :
    parseObjTail (f+1) (ws ++ cs) = parseObjTail (f+1) cs := by
  rw [parseObjTail_succ, skipWs_append_ws ws cs h, ← parseObjTail_succ]

theorem parseVal_null (f : Nat) (r : List Char) :
    parseVal (f+1) ('n' :: r) = (expectChars ['u', 'l', 'l'] r).map (fun x => (Json.null, x)) := rfl

theorem parseVal_true (f : Nat) (r : List Char) :
    parseVal (f+1) ('t' :: r) =
      (expectChars ['r', 'u', 'e'] r).map (fun x => (Json.bool true, x)) := rfl

theorem parseVal_false (f : Nat) (r : List Char) :
    parseVal (f+1) ('f' :: r) =
      (expectChars ['a', 'l', 's', 'e'] r).map (fun x => (Json.bool false, x)) := rfl

theorem parseVal_quote (f : Nat) (r : List Char) :
    parseVal (f+1) ('"' :: r) =
      (parseStr f r).map (fun p => (Json.str (String.mk p.1), p.2)) := rfl

theorem parseVal_lbrack (f : Nat) (r : List Char) :
    parseVal (f+1) ('[' :: r) =
      match skipWs r with
      | [] => none
      | c2 :: r2 =>
        if c2 = ']' then some (Json.arr .nil, r2)
        else
          match parseVal f (c2 :: r2) with
          | some (v, r3) =>
            match parseArrTail f r3 with
            | some (vs, r4) => some (Json.arr (.cons v vs), r4)
            | none => none
          | none => none := rfl

theorem parseVal_lbrace (f : Nat) (r : List Char) :
    parseVal (f+1) ('\x7b' :: r) =
      match skipWs r with
      | [] => none
      | c2 :: r2 =>
        if c2 = '\x7d' then some (Json.obj .nil, r2)
        else
          match parseMember f (c2 :: r2) with
          | some (k, v, r3) =>
            match parseObjTail f r3 with
            | some (ms, r4) => some (Json.obj (.cons k v ms), r4)
            | none => none
          | none => none := rfl

theorem parseVal_numHead (f : Nat) (c : Char) (r : List Char)
    (hd : isDigitC c = true ∨ c = '-') :
    parseVal (f+1) (c :: r) = parseNum (c :: r) := by
  have htn : (48 ≤ c.toNat ∧ c.toNat ≤ 57) ∨ c.toNat = 45 := by
    rcases hd with hd | hd
    · simp [isDigitC] at hd
      exact Or.inl hd
    · rw [hd]
      exact Or.inr rfl
  have hws : isWsC c = false := by
    have hsp : ¬(c = ' ') := char_ne_of_toNat_ne ' ' (by rw [show (' ').toNat = 32 from rfl]; omega)
    have hta : ¬(c = '\t') := char_ne_of_toNat_ne '\t' (by rw [show ('\t').toNat = 9 from rfl]; omega)
    have hnl : ¬(c = '\n') := char_ne_of_toNat_ne '\n' (by rw [show ('\n').toNat = 10 from rfl]; omega)
    have hcr : ¬(c = '\r') := char_ne_of_toNat_ne '\r' (by rw [show ('\r').toNat = 13 from rfl]; omega)
    simp [isWsC, hsp, hta, hnl, hcr]
  have hn : ¬(c = 'n') := char_ne_of_toNat_ne 'n' (by rw [show ('n').toNat = 110 from rfl]; omega)
  have ht : ¬(c = 't') := char_ne_of_toNat_ne 't' (by rw [show ('t').toNat = 116 from rfl]; omega)
  have hf : ¬(c = 'f') := char_ne_of_toNat_ne 'f' (by rw [show ('f').toNat = 102 from rfl]; omega)
  have hq : ¬(c = '"') := char_ne_of_toNat_ne '"' (by rw [show ('"').toNat = 34 from rfl]; omega)
  have hbk : ¬(c = '[') := char_ne_of_toNat_ne '[' (by rw [show ('[').toNat = 91 from rfl]; omega)
  have hbc : ¬(c = '\x7b') :=
    char_ne_of_toNat_ne '\x7b' (by rw [show ('\x7b').toNat = 123 from rfl]; omega)
  have hdisp : c = '-' ∨ isDigitC c = true := hd.symm
  rw [parseVal, skipWs_cons_not c r hws]
  simp only []
  rw [if_neg hn, if_neg ht, if_neg hf, if_neg hq, if_neg hbk, if_neg hbc, if_pos hdisp]

theorem parseArrTail_close (f : Nat) (r : List Char) :
    parseArrTail (f+1) (']' :: r) = some (.nil, r) := rfl

theorem parseArrTail_comma (f : Nat) (r : List Char) :
    parseArrTail (f+1) (',' :: r) =
      match parseVal f r with
      | some (v, r2) =>
        match parseArrTail f r2 with
        | some (vs, r3) => some (.cons v vs, r3)
        | none => none
      | none => none := rfl

theorem parseObjTail_close (f : Nat) (r : List Char) :
    parseObjTail (f+1) ('\x7d' :: r) = some (.nil, r) := rfl

theorem parseObjTail_comma (f : Nat) (r : List Char) :
    parseObjTail (f+1) (',' :: r) =
      match parseMember f r with
      | some (k, v, r2) =>
        match parseObjTail f r2 with
        | some (ms, r3) => some (.cons k v ms, r3)
        | none => none
      | none => none := rfl

theorem parseMember_quote (f : Nat) (r : List Char) :
    parseMember (f+1) ('"' :: r) =
      match parseStr f r with
      | some (kcs, r2) =>
        match skipWs r2 with
        | [] => none
        | c2 :: r3 =>
          if c2 = ':' then
            match parseVal f r3 with
            | some (v, r4) => some (String.mk kcs, v, r4)
            | none => none
          else none
      | none => none := rfl

theorem dumpsLA_cons (ind : Nat) (x : Json) (xs : JItems) :
    dumpsLA ind (.cons x xs) = spacesL ind ++ (dumpsLV ind x ++ tailA ind xs) := by
  cases xs <;> simp [dumpsLA, tailA]

theorem dumpsLO_cons (ind : Nat) (k : String) (v : Json) (ms : JFields) :
    dumpsLO ind (.cons k v ms) =
      spacesL ind ++ (quoteL k ++ ':' :: ' ' :: (dumpsLV ind v ++ tailO ind ms)) := by
  cases ms <;> simp [dumpsLO, tailO]

/-- Every rendered value starts with one of the known head characters. -/
theorem dumpsLV_head (ind : Nat) (v : Json) :
    ∃ c cs, dumpsLV ind v = c :: cs ∧
      (c.toNat = 110 ∨ c.toNat = 116 ∨ c.toNat = 102 ∨ c.toNat = 34 ∨ c.toNat = 91 ∨
        c.toNat = 123 ∨ c.toNat = 45 ∨ (48 ≤ c.toNat ∧ c.toNat ≤ 57)) := by
  cases v with
  | null => exact ⟨'n', _, rfl, Or.inl (by decide)⟩
  | bool b =>
    cases b
    · exact ⟨'f', _, rfl, Or.inr (Or.inr (Or.inl (by decide)))⟩
    · exact ⟨'t', _, rfl, Or.inr (Or.inl (by decide))⟩
  | num n =>
    cases n with
    | ofNat m =>
      obtain ⟨c, cs, hh, hdig, _⟩ := natDec_cons m
      refine ⟨c, cs, ?_, ?_⟩
      · rw [show dumpsLV ind (.num (Int.ofNat m)) = natDec m from rfl, hh]
      · simp [isDigitC] at hdig
        exact Or.inr (Or.inr (Or.inr (Or.inr (Or.inr (Or.inr (Or.inr hdig))))))
    | negSucc m =>
      exact ⟨'-', natDec (m + 1), rfl, Or.inr (Or.inr (Or.inr (Or.inr (Or.inr (Or.inr
        (Or.inl (by decide)))))))⟩
  | str s => exact ⟨'"', _, rfl, Or.inr (Or.inr (Or.inr (Or.inl (by decide))))⟩
  | arr l =>
    cases l with
    | nil => exact ⟨'[', _, rfl, Or.inr (Or.inr (Or.inr (Or.inr (Or.inl (by decide)))))⟩
    | cons x xs => exact ⟨'[', _, rfl, Or.inr (Or.inr (Or.inr (Or.inr (Or.inl (by decide)))))⟩
  | obj l =>
    cases l with
    | nil =>
      exact ⟨'\x7b', _, rfl, Or.inr (Or.inr (Or.inr (Or.inr (Or.inr (Or.inl (by decide))))))⟩
    | cons k v ms =>
      exact ⟨'\x7b', _, rfl, Or.inr (Or.inr (Or.inr (Or.inr (Or.inr (Or.inl (by decide))))))⟩

/-- The head of a rendered value is not whitespace, not a list or object
closer, and not a separator. -/
theorem dumpsLV_head_facts (c : Char)
    (h : c.toNat = 110 ∨ c.toNat = 116 ∨ c.toNat = 102 ∨ c.toNat = 34 ∨ c.toNat = 91 ∨
      c.toNat = 123 ∨ c.toNat = 45 ∨ (48 ≤ c.toNat ∧ c.toNat ≤ 57)) :
    isWsC c = false ∧ ¬(c = ']') ∧ ¬(c = '\x7d') ∧ ¬(c = ',') ∧ ¬(c = ':') := by
  have hsp : ¬(c = ' ') := char_ne_of_toNat_ne ' ' (by rw [show (' ').toNat = 32 from rfl]; omega)
  have hta : ¬(c = '\t') := char_ne_of_toNat_ne '\t' (by rw [show ('\t').toNat = 9 from rfl]; omega)
  have hnl : ¬(c = '\n') := char_ne_of_toNat_ne '\n' (by rw [show ('\n').toNat = 10 from rfl]; omega)
  have hcr : ¬(c = '\r') := char_ne_of_toNat_ne '\r' (by rw [show ('\r').toNat = 13 from rfl]; omega)
  refine ⟨by simp [isWsC, hsp, hta, hnl, hcr], ?_, ?_, ?_, ?_⟩
  · exact char_ne_of_toNat_ne ']' (by rw [show (']').toNat = 93 from rfl]; omega)
  · exact char_ne_of_toNat_ne '\x7d' (by rw [show ('\x7d').toNat = 125 from rfl]; omega)
  · exact char_ne_of_toNat_ne ',' (by rw [show (',').toNat = 44 from rfl]; omega)
  · exact char_ne_of_toNat_ne ':' (by rw [show (':').toNat = 58 from rfl]; omega)

/-- A number-delimiting head: anything that is not a digit and not a
fraction/exponent marker. -/
theorem numDelim_cons (c : Char) (l : List Char)
    (h : isDigitC c = false ∧ ¬(c = '.') ∧ ¬(c = 'e') ∧ ¬(c = 'E')) : numDelim (c :: l) := h

theorem numDelim_comma (l : List Char) : numDelim (',' :: l) :=
  numDelim_cons _ _ (by refine ⟨by decide, by decide, by decide, by decide⟩)

theorem numDelim_newline (l : List Char) : numDelim ('\n' :: l) :=
  numDelim_cons _ _ (by refine ⟨by decide, by decide, by decide, by decide⟩)

/-- The remainder after an array element delimits numbers. -/
theorem numDelim_tailA (indI ind : Nat) (xs : JItems) (rest : List Char) :
    numDelim (tailA indI xs ++ '\n' :: (spacesL ind ++ ']' :: rest)) := by
  cases xs with
  | nil => exact numDelim_newline _
  | cons x xs2 => exact numDelim_comma _

/-- The remainder after an object member delimits numbers. -/
theorem numDelim_tailO (indI ind : Nat) (ms : JFields) (rest : List Char) :
    numDelim (tailO indI ms ++ '\n' :: (spacesL ind ++ '\x7d' :: rest)) := by
  cases ms with
  | nil => exact numDelim_newline _
  | cons k v ms2 => exact numDelim_comma _

/-! ## The parser reads the serializer back -/

/-- Joint induction on the parser fuel: a rendered value (element tail,
member, member tail) parses back to itself, leaving exactly the unconsumed
remainder, whenever the fuel exceeds the input length. -/
theorem rt_main : ∀ f,
    (∀ ind v rest, numDelim rest → (dumpsLV ind v).length + rest.length < f →
      parseVal f (dumpsLV ind v ++ rest) = some (v, rest)) ∧
    (∀ indI ind l rest, (tailA indI l).length + ind + rest.length + 2 < f →
      parseArrTail f (tailA indI l ++ '\n' :: (spacesL ind ++ ']' :: rest)) = some (l, rest)) ∧
    (∀ ind k v rest, numDelim rest →
      (quoteL k).length + (dumpsLV ind v).length + rest.length + 2 < f →
      parseMember f (quoteL k ++ ':' :: ' ' :: (dumpsLV ind v ++ rest)) = some (k, v, rest)) ∧
    (∀ indI ind ms rest, (tailO indI ms).length + ind + rest.length + 2 < f →
      parseObjTail f (tailO indI ms ++ '\n' :: (spacesL ind ++ '\x7d' :: rest)) =
        some (ms, rest)) := by
  intro f
  induction f with
  | zero =>
    refine ⟨fun ind v rest _ h => ?_, fun indI ind l rest h => ?_,
      fun ind k v rest _ h => ?_, fun indI ind ms rest h => ?_⟩ <;> omega
  | succ f ih =>
    obtain ⟨ihP, ihQ, ihR, ihS⟩ := ih
    refine ⟨?_, ?_, ?_, ?_⟩
    · -- parseVal on a rendered value
      intro ind v rest hdelim hlen
      cases v with
      | null =>
        rw [show dumpsLV ind Json.null ++ rest = 'n' :: 'u' :: 'l' :: 'l' :: rest from rfl,
          parseVal_null]
        rfl
      | bool b =>
        cases b with
        | true =>
          rw [show dumpsLV ind (Json.bool true) ++ rest = 't' :: 'r' :: 'u' :: 'e' :: rest from rfl,
            parseVal_true]
          rfl
        | false =>
          rw [show dumpsLV ind (Json.bool false) ++ rest =
            'f' :: 'a' :: 'l' :: 's' :: 'e' :: rest from rfl, parseVal_false]
          rfl
      | num n =>
        cases n with
        | ofNat m =>
          obtain ⟨c, cs, hh, hdig, _⟩ := natDec_cons m
          have hshape : dumpsLV ind (Json.num (Int.ofNat m)) ++ rest = c :: (cs ++ rest) := by
            rw [show dumpsLV ind (Json.num (Int.ofNat m)) = natDec m from rfl, hh]
            rfl
          rw [hshape, parseVal_numHead f c _ (Or.inl hdig), ← hshape]
          exact parseNum_intDec (Int.ofNat m) rest hdelim
        | negSucc m =>
          have hshape : dumpsLV ind (Json.num (Int.negSucc m)) ++ rest =
              '-' :: (natDec (m + 1) ++ rest) := rfl
          rw [hshape, parseVal_numHead f '-' _ (Or.inr rfl), ← hshape]
          exact parseNum_intDec (Int.negSucc m) rest hdelim
      | str s =>
        have hshape : dumpsLV ind (Json.str s) ++ rest =
            '"' :: (escapeL s.data ++ '"' :: rest) := by
          rw [show dumpsLV ind (Json.str s) = quoteL s from rfl, quoteL]
          simp
        have hq : (dumpsLV ind (Json.str s)).length = (escapeL s.data).length + 2 := by
          rw [show dumpsLV ind (Json.str s) = quoteL s from rfl, quoteL]
          simp
        rw [hshape, parseVal_quote, parseStr_escape f s.data rest (by omega)]
        simp [strMk_data]
      | arr l =>
        cases l with
        | nil =>
          rw [show dumpsLV ind (Json.arr .nil) ++ rest = '[' :: ']' :: rest from rfl,
            parseVal_lbrack, skipWs_cons_not ']' rest (by decide)]
          simp only []
          rw [if_pos trivial]
        | cons x xs =>
          have hshape : dumpsLV ind (Json.arr (.cons x xs)) ++ rest =
              '[' :: ('\n' :: (spacesL (ind + 2) ++ (dumpsLV (ind + 2) x ++
                (tailA (ind + 2) xs ++ '\n' :: (spacesL ind ++ ']' :: rest))))) := by
            rw [show dumpsLV ind (Json.arr (.cons x xs)) =
              '[' :: '\n' :: (dumpsLA (ind + 2) (.cons x xs) ++
                '\n' :: (spacesL ind ++ [']'])) from rfl, dumpsLA_cons]
            simp
          have hlens := congrArg List.length hshape
          simp only [List.length_append, List.length_cons, spacesL,
            List.length_replicate] at hlens
          rw [hshape, parseVal_lbrack]
          obtain ⟨c, cs, hhead, hor⟩ := dumpsLV_head (ind + 2) x
          obtain ⟨hws, hneq, _, _, _⟩ := dumpsLV_head_facts c hor
          have hskip : skipWs ('\n' :: (spacesL (ind + 2) ++ (dumpsLV (ind + 2) x ++
              (tailA (ind + 2) xs ++ '\n' :: (spacesL ind ++ ']' :: rest))))) =
              c :: (cs ++ (tailA (ind + 2) xs ++ '\n' :: (spacesL ind ++ ']' :: rest))) := by
            rw [skipWs_cons_ws _ _ (by decide), skipWs_append_ws _ _ (spacesL_all_ws _), hhead,
              List.cons_append, skipWs_cons_not _ _ hws]
          rw [hskip]
          simp only []
          rw [if_neg hneq]
          have hxlen := congrArg List.length hhead
          simp only [List.length_cons] at hxlen
          have hx : parseVal f (c :: (cs ++ (tailA (ind + 2) xs ++
              '\n' :: (spacesL ind ++ ']' :: rest)))) =
              some (x, tailA (ind + 2) xs ++ '\n' :: (spacesL ind ++ ']' :: rest)) := by
            rw [show c :: (cs ++ (tailA (ind + 2) xs ++ '\n' :: (spacesL ind ++ ']' :: rest))) =
              dumpsLV (ind + 2) x ++ (tailA (ind + 2) xs ++
                '\n' :: (spacesL ind ++ ']' :: rest)) from by rw [hhead]; rfl]
            apply ihP
            · exact numDelim_tailA _ _ _ _
            · simp only [List.length_append, List.length_cons, spacesL, List.length_replicate]
              omega
          rw [hx]
          simp only []
          rw [ihQ (ind + 2) ind xs rest (by omega)]
      | obj l =>
        cases l with
        | nil =>
          rw [show dumpsLV ind (Json.obj .nil) ++ rest = '\x7b' :: '\x7d' :: rest from rfl,
            parseVal_lbrace, skipWs_cons_not '\x7d' rest (by decide)]
          simp only []
          rw [if_pos trivial]
        | cons k v ms =>
          have hshape : dumpsLV ind (Json.obj (.cons k v ms)) ++ rest =
              '\x7b' :: ('\n' :: (spacesL (ind + 2) ++ (quoteL k ++ ':' :: ' ' ::
                (dumpsLV (ind + 2) v ++
                  (tailO (ind + 2) ms ++ '\n' :: (spacesL ind ++ '\x7d' :: rest)))))) := by
            rw [show dumpsLV ind (Json.obj (.cons k v ms)) =
              '\x7b' :: '\n' :: (dumpsLO (ind + 2) (.cons k v ms) ++
                '\n' :: (spacesL ind ++ ['\x7d'])) from rfl, dumpsLO_cons]
            simp
          have hlens := congrArg List.length hshape
          simp only [List.length_append, List.length_cons, spacesL,
            List.length_replicate] at hlens
          rw [hshape, parseVal_lbrace]
          have hskip : skipWs ('\n' :: (spacesL (ind + 2) ++ (quoteL k ++ ':' :: ' ' ::
              (dumpsLV (ind + 2) v ++
                (tailO (ind + 2) ms ++ '\n' :: (spacesL ind ++ '\x7d' :: rest)))))) =
              '"' :: (escapeL k.data ++ '"' :: (':' :: ' ' :: (dumpsLV (ind + 2) v ++
                (tailO (ind + 2) ms ++ '\n' :: (spacesL ind ++ '\x7d' :: rest))))) := by
            rw [skipWs_cons_ws _ _ (by decide), skipWs_append_ws _ _ (spacesL_all_ws _)]
            rw [show quoteL k ++ ':' :: ' ' :: (dumpsLV (ind + 2) v ++
              (tailO (ind + 2) ms ++ '\n' :: (spacesL ind ++ '\x7d' :: rest))) =
              '"' :: (escapeL k.data ++ '"' :: (':' :: ' ' :: (dumpsLV (ind + 2) v ++
                (tailO (ind + 2) ms ++ '\n' :: (spacesL ind ++ '\x7d' :: rest))))) from by
              rw [quoteL]; simp]
            rw [skipWs_cons_not _ _ (by decide)]
          rw [hskip]
          simp only []
          rw [if_neg (by decide)]
          have hqlen : (quoteL k).length = (escapeL k.data).length + 2 := by
            rw [quoteL]; simp
          have hm : parseMember f ('"' :: (escapeL k.data ++ '"' :: (':' :: ' ' ::
              (dumpsLV (ind + 2) v ++ (tailO (ind + 2) ms ++
                '\n' :: (spacesL ind ++ '\x7d' :: rest)))))) =
              some (k, v, tailO (ind + 2) ms ++ '\n' :: (spacesL ind ++ '\x7d' :: rest)) := by
            rw [show '"' :: (escapeL k.data ++ '"' :: (':' :: ' ' :: (dumpsLV (ind + 2) v ++
              (tailO (ind + 2) ms ++ '\n' :: (spacesL ind ++ '\x7d' :: rest))))) =
              quoteL k ++ ':' :: ' ' :: (dumpsLV (ind + 2) v ++ (tailO (ind + 2) ms ++
                '\n' :: (spacesL ind ++ '\x7d' :: rest))) from by rw [quoteL]; simp]
            apply ihR
            · exact numDelim_tailO _ _ _ _
            · simp only [List.length_append, List.length_cons, spacesL, List.length_replicate]
              omega
          rw [hm]
          simp only []
          rw [ihS (ind + 2) ind ms rest (by omega)]
    · -- parseArrTail on a rendered element tail
      intro indI ind l rest hlen
      cases l with
      | nil =>
        rw [show tailA indI JItems.nil ++ '\n' :: (spacesL ind ++ ']' :: rest) =
          '\n' :: (spacesL ind ++ ']' :: rest) from rfl, parseArrTail_succ,
          skipWs_cons_ws _ _ (by decide), skipWs_append_ws _ _ (spacesL_all_ws _),
          skipWs_cons_not _ _ (by decide)]
        exact parseArrTail_close f rest
      | cons x xs =>
        have hshape : tailA indI (.cons x xs) ++ '\n' :: (spacesL ind ++ ']' :: rest) =
            ',' :: ('\n' :: (spacesL indI ++ (dumpsLV indI x ++
              (tailA indI xs ++ '\n' :: (spacesL ind ++ ']' :: rest))))) := by
          rw [show tailA indI (.cons x xs) = ',' :: '\n' :: dumpsLA indI (.cons x xs) from rfl,
            dumpsLA_cons]
          simp
        have hlens := congrArg List.length hshape
        simp only [List.length_append, List.length_cons, spacesL,
          List.length_replicate] at hlens
        obtain ⟨g, rfl⟩ : ∃ g, f = g + 1 := by
          cases f with
          | zero => exact absurd hlens (by omega)
          | succ g => exact ⟨g, rfl⟩
        rw [hshape, parseArrTail_comma]
        rw [show '\n' :: (spacesL indI ++ (dumpsLV indI x ++
            (tailA indI xs ++ '\n' :: (spacesL ind ++ ']' :: rest)))) =
          ('\n' :: spacesL indI) ++ (dumpsLV indI x ++
            (tailA indI xs ++ '\n' :: (spacesL ind ++ ']' :: rest))) from rfl]
        rw [parseVal_ws g _ _ (by
          intro cc hcc
          rcases List.mem_cons.mp hcc with h | h
          · rw [h]; rfl
          · exact spacesL_all_ws indI cc h)]
        rw [ihP indI x _ (numDelim_tailA _ _ _ _) (by
          simp only [List.length_append, List.length_cons, spacesL, List.length_replicate]
          omega)]
        simp only []
        rw [ihQ indI ind xs rest (by omega)]
    · -- parseMember on a rendered member
      intro ind k v rest hdelim hlen
      have hshape : quoteL k ++ ':' :: ' ' :: (dumpsLV ind v ++ rest) =
          '"' :: (escapeL k.data ++ '"' :: (':' :: ' ' :: (dumpsLV ind v ++ rest))) := by
        rw [quoteL]
        simp
      have hqlen : (quoteL k).length = (escapeL k.data).length + 2 := by
        rw [quoteL]; simp
      rw [hshape, parseMember_quote]
      rw [parseStr_escape f k.data _ (by
        simp only [List.length_append, List.length_cons]
        omega)]
      simp only []
      rw [skipWs_cons_not ':' _ (by decide)]
      simp only []
      rw [if_pos trivial]
      obtain ⟨g, rfl⟩ : ∃ g, f = g + 1 := by
        cases f with
        | zero => exact absurd hlen (by omega)
        | succ g => exact ⟨g, rfl⟩
      rw [show ' ' :: (dumpsLV ind v ++ rest) = [' '] ++ (dumpsLV ind v ++ rest) from rfl]
      rw [parseVal_ws g _ _ (by intro cc hcc; simp at hcc; rw [hcc]; rfl)]
      rw [ihP ind v rest hdelim (by omega)]
    · -- parseObjTail on a rendered member tail
      intro indI ind ms rest hlen
      cases ms with
      | nil =>
        rw [show tailO indI JFields.nil ++ '\n' :: (spacesL ind ++ '\x7d' :: rest) =
          '\n' :: (spacesL ind ++ '\x7d' :: rest) from rfl, parseObjTail_succ,
          skipWs_cons_ws _ _ (by decide), skipWs_append_ws _ _ (spacesL_all_ws _),
          skipWs_cons_not _ _ (by decide)]
        exact parseObjTail_close f rest
      | cons k v ms2 =>
        have hshape : tailO indI (.cons k v ms2) ++ '\n' :: (spacesL ind ++ '\x7d' :: rest) =
            ',' :: ('\n' :: (spacesL indI ++ (quoteL k ++ ':' :: ' ' :: (dumpsLV indI v ++
              (tailO indI ms2 ++ '\n' :: (spacesL ind ++ '\x7d' :: rest)))))) := by
          rw [show tailO indI (.cons k v ms2) =
            ',' :: '\n' :: dumpsLO indI (.cons k v ms2) from rfl, dumpsLO_cons]
          simp
        have hlens := congrArg List.length hshape
        simp only [List.length_append, List.length_cons, spacesL,
          List.length_replicate] at hlens
        obtain ⟨g, rfl⟩ : ∃ g, f = g + 1 := by
          cases f with
          | zero => exact absurd hlens (by omega)
          | succ g => exact ⟨g, rfl⟩
        rw [hshape, parseObjTail_comma]
        rw [show '\n' :: (spacesL indI ++ (quoteL k ++ ':' :: ' ' :: (dumpsLV indI v ++
            (tailO indI ms2 ++ '\n' :: (spacesL ind ++ '\x7d' :: rest))))) =
          ('\n' :: spacesL indI) ++ (quoteL k ++ ':' :: ' ' :: (dumpsLV indI v ++
            (tailO indI ms2 ++ '\n' :: (spacesL ind ++ '\x7d' :: rest)))) from rfl]
        rw [parseMember_ws g _ _ (by
          intro cc hcc
          rcases List.mem_cons.mp hcc with h | h
          · rw [h]; rfl
          · exact spacesL_all_ws indI cc h)]
        have hqlen : (quoteL k).length = (escapeL k.data).length + 2 := by
          rw [quoteL]; simp
        rw [ihR indI k v _ (numDelim_tailO _ _ _ _) (by
          simp only [List.length_append, List.length_cons, spacesL, List.length_replicate]
          omega)]
        simp only []
        rw [ihS indI ind ms2 rest (by omega)]

/-- Parsing the indented re-serialization of a JSON value yields the value
back. -/
theorem loads_dumps (v : Json) : loads (dumps v) = some v := by
  have hp := (rt_main ((dumpsLV 0 v).length + 1)).1 0 v [] (by rw [numDelim]; trivial) (by simp)
  rw [List.append_nil] at hp
  rw [loads, show (dumps v).length = (dumpsLV 0 v).length from rfl,
    show (dumps v).data = dumpsLV 0 v from rfl, hp]
  rfl

/-! ## C7: the success result is the re-serialized decoded body -/

/-- C7: on success, the string any of the three operations returns is
exactly the indented re-serialization of the JSON value decoded from the
winning candidate's body — a function of the decoded value, not of the raw
body bytes — and parsing the returned string yields that same JSON value. -/
theorem claim_C7 : ∀ env auth backend,
    (∀ pre u post body v, repoUrls env = pre ++ u :: post →
      (∀ x ∈ pre, attemptResult true (backend (mkReq (sessionOf env auth).headers [] x)) = none) →
      backend (mkReq (sessionOf env auth).headers [] u) = .response 200 body →
      loads body = some v → (pyLen v).isSome = true →
      (list_vbr_repositories env auth backend).1 = dumps v ∧ loads (dumps v) = some v) ∧
    (∀ id pre u post body v, detailUrls id env = pre ++ u :: post →
      (∀ x ∈ pre, attemptResult false (backend (mkReq (sessionOf env auth).headers [] x)) = none) →
      backend (mkReq (sessionOf env auth).headers [] u) = .response 200 body →
      loads body = some v →
      (get_repository_details id env auth backend).1 = dumps v ∧ loads (dumps v) = some v) ∧
    (∀ rid pre u post body v, jobUrls env = pre ++ u :: post →
      (∀ x ∈ pre,
        attemptResult true (backend (mkReq (sessionOf env auth).headers (jobParams rid) x)) = none) →
      backend (mkReq (sessionOf env auth).headers (jobParams rid) u) = .response 200 body →
      loads body = some v → (pyLen v).isSome = true →
      (list_backup_jobs env auth backend rid).1 = dumps v ∧ loads (dumps v) = some v) := by
  intro env auth backend
  refine ⟨?_, ?_, ?_⟩
  · intro pre u post body v hdec hpre hresp hload hplen
    have hu : attemptResult true (backend (mkReq (sessionOf env auth).headers [] u)) = some v := by
      rw [hresp]; simp [attemptResult, hload, hplen]
    have hp := probe_first_success backend (sessionOf env auth).headers [] true
      "No valid repository endpoint found" pre u post v hpre hu
    refine ⟨?_, loads_dumps v⟩
    show (probe backend (sessionOf env auth).headers [] true
      "No valid repository endpoint found" (repoUrls env)).1 = dumps v
    rw [hdec, hp]
  · intro id pre u post body v hdec hpre hresp hload
    have hu : attemptResult false (backend (mkReq (sessionOf env auth).headers [] u)) = some v := by
      rw [hresp]; simp [attemptResult, hload]
    have hp := probe_first_success backend (sessionOf env auth).headers [] false
      ("No valid repository details endpoint found for ID " ++ id) pre u post v hpre hu
    refine ⟨?_, loads_dumps v⟩
    show (probe backend (sessionOf env auth).headers [] false
      ("No valid repository details endpoint found for ID " ++ id) (detailUrls id env)).1 = dumps v
    rw [hdec, hp]
  · intro rid pre u post body v hdec hpre hresp hload hplen
    have hu : attemptResult true
        (backend (mkReq (sessionOf env auth).headers (jobParams rid) u)) = some v := by
      rw [hresp]; simp [attemptResult, hload, hplen]
    have hp := probe_first_success backend (sessionOf env auth).headers (jobParams rid) true
      "No valid jobs endpoint found" pre u post v hpre hu
    refine ⟨?_, loads_dumps v⟩
    show (probe backend (sessionOf env auth).headers (jobParams rid) true
      "No valid jobs endpoint found" (jobUrls env)).1 = dumps v
    rw [hdec, hp]

/-- Witness for C7 at a concrete input: the result is the indented
re-serialization of the decoded body, and parsing it back yields the decoded
value. -/
theorem claim_C7_witness :
    (list_vbr_repositories env0 authFail backendW7).1 =
      dumps (Json.arr (.cons (Json.obj (.cons "id" (.str "r1") .nil)) .nil)) ∧
    loads (dumps (Json.arr (.cons (Json.obj (.cons "id" (.str "r1") .nil)) .nil))) =
      some (Json.arr (.cons (Json.obj (.cons "id" (.str "r1") .nil)) .nil)) :=
  (claim_C7 env0 authFail backendW7).1 []
    "/api/v1/backupInfrastructure/repositories"
    ["/api/v1/repositories", "/api/repositories"]
    "[\x7b\"id\": \"r1\"\x7d]"
    (Json.arr (.cons (Json.obj (.cons "id" (.str "r1") .nil)) .nil))
    rfl (by intro x hx; simp at hx) rfl rfl rfl
